import Mathlib

/-!
Piece queue and reserve stack (`tetris.c`).

A shallow embedding of `src/tetris.c`: a circular queue of pieces of fixed
capacity `QUEUE_CAP`, a reserve stack of capacity `STACK_CAP`, the three menu
actions and the replenishing step that follows each of them.

Modelling conventions.

* A C `int` is an `Int`.  The index fields stay inside `[0, QUEUE_CAP]`, so no
  overflow can occur on them.  The id counter is a 32-bit `int`: its increment
  `proximoId++` wraps around, from `INT_MAX` to `INT_MIN` (`int32`).
* An array `Peca dados[N]` is a list together with a proof that its length is
  `N`.  Reads and writes go through `lerDados` / `escreverDados`, which are
  total: an index outside the array reads `Peca.indet` and writes nothing.
* A function with an output pointer `Peca *out` takes the old value of `*out`
  and returns the new one.
* `rand()` is a parameter `r : Nat` of `gerarPeca`.
* The text printed by an action is kept as a value of `Msg`.
* Uninitialised memory (the locals `fila`, `pilha` of `main`, the local piece
  of an action) is a parameter or the fixed value `Peca.indet`; it is never
  read before being written.
-/

namespace Tetris

/-- Capacity of the piece queue (`#define QUEUE_CAP 5`). -/
abbrev QUEUE_CAP : Nat := 5

/-- Capacity of the reserve stack (`#define STACK_CAP 3`). -/
abbrev STACK_CAP : Nat := 3

/-- A piece: its type letter and its creation id. -/
structure Peca where
  nome : Char
  id : Int
deriving DecidableEq, Repr

/-- Value standing for an uninitialised `Peca`. -/
def Peca.indet : Peca := ⟨'?', 0⟩

/-- Circular queue: the array, the index of the first element, the count. -/
structure Fila where
  dados : List Peca
  frente : Int
  tamanho : Int
  tam_dados : dados.length = QUEUE_CAP
deriving DecidableEq

/-- Reserve stack: the array and the count (`topo - 1` is the top element). -/
structure Pilha where
  dados : List Peca
  topo : Int
  tam_dados : dados.length = STACK_CAP
deriving DecidableEq

/-- Array read `xs[i]`, total: out of range reads `Peca.indet`. -/
def lerDados (xs : List Peca) (i : Int) : Peca :=
  if 0 ≤ i ∧ i < xs.length then xs.getD i.toNat Peca.indet else Peca.indet

/-- Array write `xs[i] = p`, total: out of range writes nothing. -/
def escreverDados (xs : List Peca) (i : Int) (p : Peca) : List Peca :=
  if 0 ≤ i ∧ i < xs.length then xs.set i.toNat p else xs

/-- The table `tipos` of `gerarPeca`. -/
def tipos : List Char := ['I', 'O', 'T', 'L']

/-- Largest value of a 32-bit `int`. -/
def INT_MAX : Int := 2147483647

/-- Smallest value of a 32-bit `int`. -/
def INT_MIN : Int := -2147483648

/-- The 32-bit `int` that an integer wraps to: the value congruent to it
modulo `2^32` in the range from `INT_MIN` to `INT_MAX`. -/
def int32 (x : Int) : Int :=
  (x + 2147483648) % 4294967296 - 2147483648

/-- `gerarPeca`: a piece with a random type and the next id; returns the piece
and the new value of the global `proximoId` (`p.id = proximoId++`, the
increment being that of a 32-bit `int`). -/
def gerarPeca (r : Nat) (proximoId : Int) : Peca × Int :=
  let idx := r % tipos.length
  ({ nome := tipos.getD idx 'I', id := proximoId }, int32 (proximoId + 1))

/-- `initFila`: sets `frente` and `tamanho`, leaves the array as it was. -/
def initFila (f : Fila) : Fila :=
  { f with frente := 0, tamanho := 0 }

/-- `filaCheia`: 1 if full, 0 otherwise. -/
def filaCheia (f : Fila) : Int :=
  if f.tamanho = (QUEUE_CAP : Int) then 1 else 0

/-- `filaVazia`: 1 if empty, 0 otherwise. -/
def filaVazia (f : Fila) : Int :=
  if f.tamanho = 0 then 1 else 0

/-- `enfileirar`: enqueue at the end; returns 1 if done, 0 if full. -/
def enfileirar (f : Fila) (p : Peca) : Int × Fila :=
  if filaCheia f ≠ 0 then (0, f)
  else
    let pos := (f.frente + f.tamanho).tmod (QUEUE_CAP : Int)
    (1, { dados := escreverDados f.dados pos p
          frente := f.frente
          tamanho := f.tamanho + 1
          tam_dados := by unfold escreverDados; split <;> simp [f.tam_dados] })

/-- `desenfileirar`: dequeue from the front into `*out`; returns 1 if done,
0 if empty. -/
def desenfileirar (f : Fila) (out : Peca) : Int × Fila × Peca :=
  if filaVazia f ≠ 0 then (0, f, out)
  else
    (1, { f with frente := (f.frente + 1).tmod (QUEUE_CAP : Int)
                 tamanho := f.tamanho - 1 },
     lerDados f.dados f.frente)

/-- `initPilha`: sets `topo`, leaves the array as it was. -/
def initPilha (p : Pilha) : Pilha :=
  { p with topo := 0 }

/-- `pilhaCheia`: 1 if full, 0 otherwise. -/
def pilhaCheia (p : Pilha) : Int :=
  if p.topo = (STACK_CAP : Int) then 1 else 0

/-- `pilhaVazia`: 1 if empty, 0 otherwise. -/
def pilhaVazia (p : Pilha) : Int :=
  if p.topo = 0 then 1 else 0

/-- `empilhar`: push on top; returns 1 if done, 0 if full. -/
def empilhar (p : Pilha) (x : Peca) : Int × Pilha :=
  if pilhaCheia p ≠ 0 then (0, p)
  else
    (1, { dados := escreverDados p.dados p.topo x
          topo := p.topo + 1
          tam_dados := by unfold escreverDados; split <;> simp [p.tam_dados] })

/-- `desempilhar`: pop the top into `*out`; returns 1 if done, 0 if empty. -/
def desempilhar (p : Pilha) (out : Peca) : Int × Pilha × Peca :=
  if pilhaVazia p ≠ 0 then (0, p, out)
  else
    (1, { p with topo := p.topo - 1 }, lerDados p.dados (p.topo - 1))

/-- The queue as `mostrarEstado` reads it: `dados[(frente + i) % QUEUE_CAP]`
for `i = 0 .. tamanho - 1`, front to end. -/
def filaLogica (f : Fila) : List Peca :=
  (List.range f.tamanho.toNat).map
    (fun (i : Nat) => lerDados f.dados ((f.frente + (i : Int)).tmod (QUEUE_CAP : Int)))

/-- The stack from base to top: `dados[i]` for `i = 0 .. topo - 1`. -/
def pilhaBaseTopo (p : Pilha) : List Peca :=
  (List.range p.topo.toNat).map (fun (i : Nat) => lerDados p.dados (i : Int))

/-- The stack as `mostrarEstado` reads it: `i = topo - 1` down to `0`. -/
def pilhaTopoBase (p : Pilha) : List Peca :=
  (pilhaBaseTopo p).reverse

/-- `mostrarEstado`: the two sequences printed (queue front to end, stack top
to base). -/
def mostrarEstado (f : Fila) (p : Pilha) : List Peca × List Peca :=
  (filaLogica f, pilhaTopoBase p)

/-- The lines printed by the actions and by the replenishing step. -/
inductive Msg where
  | jogou (p : Peca)
  | filaVaziaJogar
  | pilhaCheiaReservar
  | reservou (p : Peca)
  | descartadaNaReserva (p : Peca)
  | filaVaziaReservar
  | usou (p : Peca)
  | pilhaVaziaUsar
  | novaAdicionada (p : Peca)
  | novaDescartada (p : Peca)
deriving DecidableEq, Repr

/-- `jogarPeca`: dequeue the front piece and report it. -/
def jogarPeca (fila : Fila) : Fila × Msg :=
  let d := desenfileirar fila Peca.indet
  if d.1 ≠ 0 then (d.2.1, Msg.jogou d.2.2)
  else (d.2.1, Msg.filaVaziaJogar)

/-- `reservarPeca`: if the stack has room, dequeue the front piece and push
it on the stack. -/
def reservarPeca (fila : Fila) (pilha : Pilha) : Fila × Pilha × Msg :=
  if pilhaCheia pilha ≠ 0 then (fila, pilha, Msg.pilhaCheiaReservar)
  else
    let d := desenfileirar fila Peca.indet
    if d.1 ≠ 0 then
      let e := empilhar pilha d.2.2
      if e.1 ≠ 0 then (d.2.1, e.2, Msg.reservou d.2.2)
      else (d.2.1, e.2, Msg.descartadaNaReserva d.2.2)
    else (d.2.1, pilha, Msg.filaVaziaReservar)

/-- `usarPecaReservada`: pop the top piece of the stack and report it. -/
def usarPecaReservada (pilha : Pilha) : Pilha × Msg :=
  let d := desempilhar pilha Peca.indet
  if d.1 ≠ 0 then (d.2.1, Msg.usou d.2.2)
  else (d.2.1, Msg.pilhaVaziaUsar)

/-- `reporFilaComNovaPeca`: create a piece and try to enqueue it; returns the
queue, the new `proximoId` and the line printed. -/
def reporFilaComNovaPeca (r : Nat) (fila : Fila) (proximoId : Int) : Fila × Int × Msg :=
  let g := gerarPeca r proximoId
  let e := enfileirar fila g.1
  if e.1 ≠ 0 then (e.2, g.2, Msg.novaAdicionada g.1)
  else (e.2, g.2, Msg.novaDescartada g.1)

/-- The variables of `main` together with the global counter. -/
structure Estado where
  fila : Fila
  pilha : Pilha
  proximoId : Int
deriving DecidableEq

/-- The three menu options that change the state (`case 1`, `case 2`,
`case 3` of the `switch`). -/
inductive Acao where
  | jogar
  | reservar
  | usar
deriving DecidableEq, Repr

/-- The call made first in a `case` of the `switch`: the state it leaves and
the line it prints. -/
def aplicarAcao (a : Acao) (s : Estado) : Estado × Msg :=
  match a with
  | Acao.jogar =>
      let j := jogarPeca s.fila
      ({ s with fila := j.1 }, j.2)
  | Acao.reservar =>
      let v := reservarPeca s.fila s.pilha
      ({ s with fila := v.1, pilha := v.2.1 }, v.2.2)
  | Acao.usar =>
      let u := usarPecaReservada s.pilha
      ({ s with pilha := u.1 }, u.2)

/-- The call `reporFilaComNovaPeca(&fila)` made second in a `case`. -/
def repor (r : Nat) (s : Estado) : Estado × Msg :=
  let n := reporFilaComNovaPeca r s.fila s.proximoId
  ({ s with fila := n.1, proximoId := n.2.1 }, n.2.2)

/-- One `case` of the `switch`: the action, then the replenishing step, with
the random value `r` drawn by its `gerarPeca`. -/
def passo (a : Acao) (r : Nat) (s : Estado) : Estado :=
  (repor r (aplicarAcao a s).1).1

/-- A finite run of the menu loop: the options chosen, each with the random
value its replenishing step draws. -/
def executar : List (Acao × Nat) → Estado → Estado
  | [], s => s
  | (a, r) :: resto, s => executar resto (passo a r s)

/-- The loop `for (i = 0; i < QUEUE_CAP; i++) enfileirar(&fila, gerarPeca())`
of `main`, with `k` iterations left, `i` the loop variable and `rnd i` the
random value drawn in iteration `i`. -/
def preencherFila : Nat → Nat → (Nat → Nat) → Fila → Int → Fila × Int
  | 0, _, _, f, pid => (f, pid)
  | k + 1, i, rnd, f, pid =>
      let g := gerarPeca (rnd i) pid
      preencherFila k (i + 1) rnd (enfileirar f g.1).2 g.2

/-- The state of `main` when the menu loop is entered: `f0` and `p0` are the
uninitialised locals, `proximoId` starts at 0. -/
def inicio (f0 : Fila) (p0 : Pilha) (rnd : Nat → Nat) : Estado :=
  let c := preencherFila QUEUE_CAP 0 rnd (initFila f0) 0
  { fila := c.1, pilha := initPilha p0, proximoId := c.2 }

/-- Index well-formedness of a queue. -/
def Fila.bemFormada (f : Fila) : Prop :=
  0 ≤ f.frente ∧ f.frente < (QUEUE_CAP : Int) ∧ 0 ≤ f.tamanho ∧ f.tamanho ≤ (QUEUE_CAP : Int)

/-- Index well-formedness of a stack. -/
def Pilha.bemFormada (p : Pilha) : Prop :=
  0 ≤ p.topo ∧ p.topo ≤ (STACK_CAP : Int)

instance (f : Fila) : Decidable f.bemFormada :=
  inferInstanceAs (Decidable (0 ≤ f.frente ∧ f.frente < (QUEUE_CAP : Int) ∧
    0 ≤ f.tamanho ∧ f.tamanho ≤ (QUEUE_CAP : Int)))

instance (p : Pilha) : Decidable p.bemFormada :=
  inferInstanceAs (Decidable (0 ≤ p.topo ∧ p.topo ≤ (STACK_CAP : Int)))

/-- An array of five copies of a piece, as a queue array. -/
def filaDe (x : Peca) (frente tamanho : Int) : Fila :=
  ⟨[x, x, x, x, x], frente, tamanho, rfl⟩

/-- An array of three copies of a piece, as a stack array. -/
def pilhaDe (x : Peca) (topo : Int) : Pilha :=
  ⟨[x, x, x], topo, rfl⟩

/-- Both containers have their indices in range. -/
def Estado.bemFormado (s : Estado) : Prop :=
  s.fila.bemFormada ∧ s.pilha.bemFormada

instance (s : Estado) : Decidable s.bemFormado :=
  inferInstanceAs (Decidable (s.fila.bemFormada ∧ s.pilha.bemFormada))

/-- What an action removed from the containers, read off the line it
prints. -/
def Msg.removida : Msg → Option Peca
  | Msg.jogou p => some p
  | Msg.reservou p => some p
  | Msg.descartadaNaReserva p => some p
  | Msg.usou p => some p
  | _ => none

/-- The ids held by the two containers: the stack from base to top, then the
queue from front to end. -/
def idsContidos (s : Estado) : List Int :=
  (pilhaBaseTopo s.pilha ++ filaLogica s.fila).map Peca.id

/-- The counts are within the capacities. -/
def Estado.dentroDaCapacidade (s : Estado) : Prop :=
  0 ≤ s.fila.tamanho ∧ s.fila.tamanho ≤ (QUEUE_CAP : Int) ∧
    0 ≤ s.pilha.topo ∧ s.pilha.topo ≤ (STACK_CAP : Int)

/-- Consecutive calls `enfileirar(&f, p)` for the pieces of a list: the values
returned and the queue left. -/
def enfileirarTodas : Fila → List Peca → List Int × Fila
  | f, [] => ([], f)
  | f, p :: ps =>
      let e := enfileirar f p
      let t := enfileirarTodas e.2 ps
      (e.1 :: t.1, t.2)

/-- Consecutive calls `desenfileirar(&f, &out)`, `n` of them: for each call
the value returned and the content of `out` after it, and the queue left. -/
def desenfileirarVarias : Nat → Fila → Peca → List (Int × Peca) × Fila
  | 0, f, _ => ([], f)
  | n + 1, f, out =>
      let d := desenfileirar f out
      let t := desenfileirarVarias n d.2.1 d.2.2
      ((d.1, d.2.2) :: t.1, t.2)

/-- Consecutive calls `empilhar(&p, x)` for the pieces of a list: the values
returned and the stack left. -/
def empilharTodas : Pilha → List Peca → List Int × Pilha
  | p, [] => ([], p)
  | p, x :: xs =>
      let e := empilhar p x
      let t := empilharTodas e.2 xs
      (e.1 :: t.1, t.2)

/-- Consecutive calls `desempilhar(&p, &out)`, `n` of them: for each call the
value returned and the content of `out` after it, and the stack left. -/
def desempilharVarias : Nat → Pilha → Peca → List (Int × Peca) × Pilha
  | 0, p, _ => ([], p)
  | n + 1, p, out =>
      let d := desempilhar p out
      let t := desempilharVarias n d.2.1 d.2.2
      ((d.1, d.2.2) :: t.1, t.2)

/-- The ids in the queue, front to end. -/
def idsFila (s : Estado) : List Int :=
  (filaLogica s.fila).map Peca.id

/-- The ids in the stack, base to top. -/
def idsPilha (s : Estado) : List Int :=
  (pilhaBaseTopo s.pilha).map Peca.id

/-- The fixed session used in the examples: arrays of blanks as uninitialised
memory, and `i` as the random value of the `i`-th piece of the filling loop. -/
def sessaoExemplo : Estado :=
  inicio (filaDe Peca.indet 0 0) (pilhaDe Peca.indet 0) (fun i => i)

/-- Three Reserve steps, with the random values of their replenishing
steps. -/
def tresReservas : List (Acao × Nat) :=
  [(Acao.reservar, 0), (Acao.reservar, 1), (Acao.reservar, 2)]

/-- The values returned by the calls `enfileirar(&fila, gerarPeca())` of the
filling loop of `main`, in order (same arguments as `preencherFila`; `main`
itself ignores them). -/
def retornosDoInicio : Nat → Nat → (Nat → Nat) → Fila → Int → List Int
  | 0, _, _, _, _ => []
  | k + 1, i, rnd, f, pid =>
      let g := gerarPeca (rnd i) pid
      (enfileirar f g.1).1 :: retornosDoInicio k (i + 1) rnd (enfileirar f g.1).2 g.2

/-- A successful `enfileirar(&f, p)` writes no slot that holds one of the
pieces the queue reads as its contents: `dados[(frente + j) % QUEUE_CAP]` is the
same before and after, for `0 ≤ j < tamanho`. -/
def naoEscreveLogicos (f : Fila) (p : Peca) : Prop :=
  ∀ j : Int, 0 ≤ j → j < f.tamanho →
    lerDados (enfileirar f p).2.dados ((f.frente + j).tmod (QUEUE_CAP : Int))
      = lerDados f.dados ((f.frente + j).tmod (QUEUE_CAP : Int))

/-- A queue that wraps around: head at 3, three pieces in the slots 3, 4, 0. -/
def filaEmVolta : Fila :=
  ⟨[⟨'T', 12⟩, ⟨'?', 0⟩, ⟨'?', 0⟩, ⟨'I', 10⟩, ⟨'O', 11⟩], 3, 3, rfl⟩

/-- A stack holding two pieces, with a blank third slot. -/
def pilhaDeDuas : Pilha :=
  ⟨[⟨'L', 1⟩, ⟨'I', 2⟩, ⟨'?', 0⟩], 2, rfl⟩

/-- The bounded queue as the specification words it, on the list of its
pieces from head to tail: `enqueue` appends at the tail, and fails without
change when the list has `QUEUE_CAP` pieces. -/
def enqueueSpec (l : List Peca) (p : Peca) : Bool × List Peca :=
  if l.length = QUEUE_CAP then (false, l) else (true, l ++ [p])

/-- The bounded queue as the specification words it: `dequeue` removes and
returns the head, and fails without change when the list is empty. -/
def dequeueSpec (l : List Peca) : Option Peca × List Peca :=
  match l with
  | [] => (none, [])
  | h :: t => (some h, t)

/-- The condition under which `lerDados` and `escreverDados` reach the
array. -/
def indiceValido (xs : List Peca) (i : Int) : Prop :=
  0 ≤ i ∧ i < xs.length

example :
    (mostrarEstado (inicio (filaDe Peca.indet 9 9) (pilhaDe Peca.indet 7) (fun i => i)).fila
      (inicio (filaDe Peca.indet 9 9) (pilhaDe Peca.indet 7) (fun i => i)).pilha)
    = ([⟨'I', 0⟩, ⟨'O', 1⟩, ⟨'T', 2⟩, ⟨'L', 3⟩, ⟨'I', 4⟩], []) := by decide

example :
    let s := executar [(Acao.jogar, 1), (Acao.reservar, 2), (Acao.usar, 0)]
      (inicio (filaDe Peca.indet 9 9) (pilhaDe Peca.indet 7) (fun i => i))
    (mostrarEstado s.fila s.pilha).1.map Peca.id = [2, 3, 4, 5, 6] ∧ s.proximoId = 8 := by
  decide

/-! ## The containers seen as lists -/

theorem lista_de_cinco (l : List Peca) (h : l.length = 5) :
    ∃ a b c d e, l = [a, b, c, d, e] := by
  match l, h with
  | [a, b, c, d, e], _ => exact ⟨a, b, c, d, e, rfl⟩

theorem lista_de_tres (l : List Peca) (h : l.length = 3) :
    ∃ a b c, l = [a, b, c] := by
  match l, h with
  | [a, b, c], _ => exact ⟨a, b, c, rfl⟩

theorem enfileirar_cheia (f : Fila) (p : Peca) (h : f.tamanho = (QUEUE_CAP : Int)) :
    enfileirar f p = (0, f) := by
  simp [enfileirar, filaCheia, h]

theorem desenfileirar_vazia (f : Fila) (out : Peca) (h : f.tamanho = 0) :
    desenfileirar f out = (0, f, out) := by
  simp [desenfileirar, filaVazia, h]

theorem empilhar_cheia (p : Pilha) (x : Peca) (h : p.topo = (STACK_CAP : Int)) :
    empilhar p x = (0, p) := by
  simp [empilhar, pilhaCheia, h]

theorem desempilhar_vazia (p : Pilha) (out : Peca) (h : p.topo = 0) :
    desempilhar p out = (0, p, out) := by
  simp [desempilhar, pilhaVazia, h]

/-- A successful `enfileirar` on a well-formed queue appends at the end of
the logical contents. -/
theorem enfileirar_ok (f : Fila) (p : Peca) (hwf : f.bemFormada)
    (hlt : f.tamanho < (QUEUE_CAP : Int)) :
    (enfileirar f p).1 = 1 ∧ (enfileirar f p).2.bemFormada ∧
      filaLogica (enfileirar f p).2 = filaLogica f ++ [p] ∧
      (enfileirar f p).2.tamanho = f.tamanho + 1 ∧
      (enfileirar f p).2.frente = f.frente := by
  obtain ⟨dados, fr, t, hlen⟩ := f
  obtain ⟨a, b, c, d, e, rfl⟩ := lista_de_cinco dados hlen
  obtain ⟨h1, h2, h3, _⟩ := hwf
  simp only at h1 h2 h3 hlt
  interval_cases fr <;> interval_cases t <;>
    exact ⟨rfl, of_decide_eq_true rfl, rfl, rfl, rfl⟩

/-- A successful `desenfileirar` on a well-formed queue takes the logical
head. -/
theorem desenfileirar_ok (f : Fila) (out : Peca) (hwf : f.bemFormada)
    (hpos : 0 < f.tamanho) :
    (desenfileirar f out).1 = 1 ∧ (desenfileirar f out).2.1.bemFormada ∧
      filaLogica f = (desenfileirar f out).2.2 :: filaLogica (desenfileirar f out).2.1 ∧
      (desenfileirar f out).2.1.tamanho = f.tamanho - 1 ∧
      (desenfileirar f out).2.1.dados = f.dados := by
  obtain ⟨dados, fr, t, hlen⟩ := f
  obtain ⟨a, b, c, d, e, rfl⟩ := lista_de_cinco dados hlen
  obtain ⟨h1, h2, _, h4⟩ := hwf
  simp only at h1 h2 h4 hpos
  interval_cases fr <;> interval_cases t <;>
    exact ⟨rfl, of_decide_eq_true rfl, rfl, rfl, rfl⟩

/-- A successful `empilhar` on a well-formed stack appends on top. -/
theorem empilhar_ok (p : Pilha) (x : Peca) (hwf : p.bemFormada)
    (hlt : p.topo < (STACK_CAP : Int)) :
    (empilhar p x).1 = 1 ∧ (empilhar p x).2.bemFormada ∧
      pilhaBaseTopo (empilhar p x).2 = pilhaBaseTopo p ++ [x] ∧
      (empilhar p x).2.topo = p.topo + 1 := by
  obtain ⟨dados, t, hlen⟩ := p
  obtain ⟨a, b, c, rfl⟩ := lista_de_tres dados hlen
  obtain ⟨h1, _⟩ := hwf
  simp only at h1 hlt
  interval_cases t <;> exact ⟨rfl, of_decide_eq_true rfl, rfl, rfl⟩

/-- A successful `desempilhar` on a well-formed stack takes the top. -/
theorem desempilhar_ok (p : Pilha) (out : Peca) (hwf : p.bemFormada)
    (hpos : 0 < p.topo) :
    (desempilhar p out).1 = 1 ∧ (desempilhar p out).2.1.bemFormada ∧
      pilhaBaseTopo p = pilhaBaseTopo (desempilhar p out).2.1 ++ [(desempilhar p out).2.2] ∧
      (desempilhar p out).2.1.topo = p.topo - 1 ∧
      (desempilhar p out).2.1.dados = p.dados := by
  obtain ⟨dados, t, hlen⟩ := p
  obtain ⟨a, b, c, rfl⟩ := lista_de_tres dados hlen
  obtain ⟨_, h2⟩ := hwf
  simp only at h2 hpos
  interval_cases t <;> exact ⟨rfl, of_decide_eq_true rfl, rfl, rfl, rfl⟩

theorem filaLogica_length (f : Fila) : (filaLogica f).length = f.tamanho.toNat := by
  simp [filaLogica]

theorem pilhaBaseTopo_length (p : Pilha) : (pilhaBaseTopo p).length = p.topo.toNat := by
  simp [pilhaBaseTopo]

/-! ## The actions on well-formed states -/

theorem jogarPeca_vazia (f : Fila) (h : f.tamanho = 0) :
    jogarPeca f = (f, Msg.filaVaziaJogar) := by
  simp [jogarPeca, desenfileirar_vazia f Peca.indet h]

theorem jogarPeca_ok (f : Fila) (hwf : f.bemFormada) (hpos : 0 < f.tamanho) :
    jogarPeca f = ((desenfileirar f Peca.indet).2.1,
      Msg.jogou (desenfileirar f Peca.indet).2.2) := by
  have h := (desenfileirar_ok f Peca.indet hwf hpos).1
  simp [jogarPeca, h]

theorem reservarPeca_cheia (f : Fila) (p : Pilha) (h : p.topo = (STACK_CAP : Int)) :
    reservarPeca f p = (f, p, Msg.pilhaCheiaReservar) := by
  simp [reservarPeca, pilhaCheia, h]

theorem reservarPeca_vazia (f : Fila) (p : Pilha) (hp : p.topo ≠ (STACK_CAP : Int))
    (h : f.tamanho = 0) :
    reservarPeca f p = (f, p, Msg.filaVaziaReservar) := by
  have hp3 : ¬ p.topo = 3 := by exact_mod_cast hp
  simp [reservarPeca, pilhaCheia, hp3, desenfileirar_vazia f Peca.indet h]

theorem reservarPeca_ok (f : Fila) (p : Pilha) (hwf : f.bemFormada) (hwp : p.bemFormada)
    (hp : p.topo < (STACK_CAP : Int)) (hpos : 0 < f.tamanho) :
    reservarPeca f p = ((desenfileirar f Peca.indet).2.1,
      (empilhar p (desenfileirar f Peca.indet).2.2).2,
      Msg.reservou (desenfileirar f Peca.indet).2.2) := by
  have h := (desenfileirar_ok f Peca.indet hwf hpos).1
  have he := (empilhar_ok p (desenfileirar f Peca.indet).2.2 hwp hp).1
  have hp3 : ¬ p.topo = 3 := by
    have hne : p.topo ≠ (STACK_CAP : Int) := ne_of_lt hp
    exact_mod_cast hne
  simp [reservarPeca, pilhaCheia, hp3, h, he]

theorem usarPecaReservada_vazia (p : Pilha) (h : p.topo = 0) :
    usarPecaReservada p = (p, Msg.pilhaVaziaUsar) := by
  simp [usarPecaReservada, desempilhar_vazia p Peca.indet h]

theorem usarPecaReservada_ok (p : Pilha) (hwp : p.bemFormada) (hpos : 0 < p.topo) :
    usarPecaReservada p = ((desempilhar p Peca.indet).2.1,
      Msg.usou (desempilhar p Peca.indet).2.2) := by
  have h := (desempilhar_ok p Peca.indet hwp hpos).1
  simp [usarPecaReservada, h]

/-- The effect of an action on a well-formed state, on the logical contents:
nothing changes, or the queue head is played, or the queue head goes on top of
the stack, or the stack top is used. -/
theorem aplicarAcao_casos (a : Acao) (s : Estado) (hwf : s.bemFormado) :
    (aplicarAcao a s).1.bemFormado ∧ (aplicarAcao a s).1.proximoId = s.proximoId ∧
    (((aplicarAcao a s).1 = s ∧ (aplicarAcao a s).2.removida = none) ∨
     (∃ h, a = Acao.jogar ∧ (aplicarAcao a s).2 = Msg.jogou h ∧
        filaLogica s.fila = h :: filaLogica (aplicarAcao a s).1.fila ∧
        (aplicarAcao a s).1.fila.tamanho = s.fila.tamanho - 1 ∧
        (aplicarAcao a s).1.pilha = s.pilha) ∨
     (∃ h, a = Acao.reservar ∧ (aplicarAcao a s).2 = Msg.reservou h ∧
        filaLogica s.fila = h :: filaLogica (aplicarAcao a s).1.fila ∧
        (aplicarAcao a s).1.fila.tamanho = s.fila.tamanho - 1 ∧
        pilhaBaseTopo (aplicarAcao a s).1.pilha = pilhaBaseTopo s.pilha ++ [h] ∧
        (aplicarAcao a s).1.pilha.topo = s.pilha.topo + 1) ∨
     (∃ h, a = Acao.usar ∧ (aplicarAcao a s).2 = Msg.usou h ∧
        pilhaBaseTopo s.pilha = pilhaBaseTopo (aplicarAcao a s).1.pilha ++ [h] ∧
        (aplicarAcao a s).1.pilha.topo = s.pilha.topo - 1 ∧
        (aplicarAcao a s).1.fila = s.fila)) := by
  obtain ⟨hf, hp⟩ := hwf
  cases a with
  | jogar =>
    by_cases h0 : s.fila.tamanho = 0
    · simp [aplicarAcao, jogarPeca_vazia s.fila h0, Estado.bemFormado, hf, hp, Msg.removida]
    · have hpos : 0 < s.fila.tamanho := lt_of_le_of_ne hf.2.2.1 (Ne.symm h0)
      obtain ⟨_, h2, h3, h4, _⟩ := desenfileirar_ok s.fila Peca.indet hf hpos
      refine ⟨?_, ?_, Or.inr (Or.inl ⟨(desenfileirar s.fila Peca.indet).2.2, rfl, ?_, ?_, ?_, ?_⟩)⟩ <;>
        simp [aplicarAcao, jogarPeca_ok s.fila hf hpos, Estado.bemFormado, hp, h2, h4]
      exact h3
  | reservar =>
    by_cases hc : s.pilha.topo = (STACK_CAP : Int)
    · simp [aplicarAcao, reservarPeca_cheia s.fila s.pilha hc, Estado.bemFormado, hf, hp,
        Msg.removida]
    · by_cases h0 : s.fila.tamanho = 0
      · simp [aplicarAcao, reservarPeca_vazia s.fila s.pilha hc h0, Estado.bemFormado, hf, hp,
          Msg.removida]
      · have hpos : 0 < s.fila.tamanho := lt_of_le_of_ne hf.2.2.1 (Ne.symm h0)
        have hlt : s.pilha.topo < (STACK_CAP : Int) := lt_of_le_of_ne hp.2 hc
        obtain ⟨_, h2, h3, h4, _⟩ := desenfileirar_ok s.fila Peca.indet hf hpos
        obtain ⟨_, e2, e3, e4⟩ :=
          empilhar_ok s.pilha (desenfileirar s.fila Peca.indet).2.2 hp hlt
        refine ⟨?_, ?_, Or.inr (Or.inr (Or.inl
          ⟨(desenfileirar s.fila Peca.indet).2.2, rfl, ?_, ?_, ?_, ?_, ?_⟩))⟩ <;>
          simp [aplicarAcao, reservarPeca_ok s.fila s.pilha hf hp hlt hpos, Estado.bemFormado,
            h2, h4, e2, e3, e4]
        exact h3
  | usar =>
    by_cases h0 : s.pilha.topo = 0
    · simp [aplicarAcao, usarPecaReservada_vazia s.pilha h0, Estado.bemFormado, hf, hp,
        Msg.removida]
    · have hpos : 0 < s.pilha.topo := lt_of_le_of_ne hp.1 (Ne.symm h0)
      obtain ⟨_, h2, h3, h4, _⟩ := desempilhar_ok s.pilha Peca.indet hp hpos
      refine ⟨?_, ?_, Or.inr (Or.inr (Or.inr
        ⟨(desempilhar s.pilha Peca.indet).2.2, rfl, ?_, ?_, ?_, ?_⟩))⟩ <;>
        simp [aplicarAcao, usarPecaReservada_ok s.pilha hp hpos, Estado.bemFormado, hf, h2, h4]
      exact h3

/-! ## The 32-bit counter -/

theorem int32_idem (x : Int) : int32 (int32 x) = int32 x := by
  unfold int32; omega

theorem int32_soma (x y : Int) : int32 (int32 x + y) = int32 (x + y) := by
  unfold int32; omega

theorem int32_no_intervalo (x : Int) (h1 : INT_MIN ≤ x) (h2 : x ≤ INT_MAX) : int32 x = x := by
  unfold INT_MIN at h1
  unfold INT_MAX at h2
  unfold int32; omega

theorem gerarPeca_id (r : Nat) (pid : Int) :
    (gerarPeca r pid).1.id = pid ∧ (gerarPeca r pid).2 = int32 (pid + 1) := by
  simp [gerarPeca]

/-- The effect of the replenishing step on a well-formed state: the counter
advances, the stack is untouched, and the new piece is dropped by a full queue
or becomes the logical end of the queue. -/
theorem repor_casos (r : Nat) (s : Estado) (hwf : s.bemFormado) :
    (repor r s).1.bemFormado ∧ (repor r s).1.proximoId = int32 (s.proximoId + 1) ∧
    (repor r s).1.pilha = s.pilha ∧
    ((s.fila.tamanho = (QUEUE_CAP : Int) ∧ (repor r s).1.fila = s.fila ∧
        (repor r s).2 = Msg.novaDescartada (gerarPeca r s.proximoId).1) ∨
     (s.fila.tamanho < (QUEUE_CAP : Int) ∧
        filaLogica (repor r s).1.fila = filaLogica s.fila ++ [(gerarPeca r s.proximoId).1] ∧
        (repor r s).1.fila.tamanho = s.fila.tamanho + 1 ∧
        (repor r s).2 = Msg.novaAdicionada (gerarPeca r s.proximoId).1)) := by
  obtain ⟨hf, hp⟩ := hwf
  by_cases hc : s.fila.tamanho = (QUEUE_CAP : Int)
  · have he := enfileirar_cheia s.fila (gerarPeca r s.proximoId).1 hc
    refine ⟨?_, ?_, ?_, Or.inl ⟨hc, ?_, ?_⟩⟩ <;>
      simp [repor, reporFilaComNovaPeca, he, Estado.bemFormado, hf, hp, (gerarPeca_id _ _).2]
  · have hlt : s.fila.tamanho < (QUEUE_CAP : Int) := lt_of_le_of_ne hf.2.2.2 hc
    obtain ⟨e1, e2, e3, e4, _⟩ := enfileirar_ok s.fila (gerarPeca r s.proximoId).1 hf hlt
    refine ⟨?_, ?_, ?_, Or.inr ⟨hlt, ?_, ?_, ?_⟩⟩ <;>
      simp [repor, reporFilaComNovaPeca, e1, e2, e3, e4, Estado.bemFormado, hp,
        (gerarPeca_id _ _).2]

theorem executar_append (xs ys : List (Acao × Nat)) (s : Estado) :
    executar (xs ++ ys) s = executar ys (executar xs s) := by
  induction xs generalizing s with
  | nil => rfl
  | cons x xs ih =>
    obtain ⟨a, r⟩ := x
    simp [executar, ih]

/-- The filling loop on a well-formed queue with room for `k` more pieces,
started with the counter at an `int` value. -/
theorem preencherFila_ok (k : Nat) :
    ∀ (i : Nat) (rnd : Nat → Nat) (f : Fila) (pid : Int), f.bemFormada →
      f.tamanho + (k : Int) ≤ (QUEUE_CAP : Int) → int32 pid = pid →
      (preencherFila k i rnd f pid).1.bemFormada ∧
      (preencherFila k i rnd f pid).1.tamanho = f.tamanho + (k : Int) ∧
      (preencherFila k i rnd f pid).1.frente = f.frente ∧
      (preencherFila k i rnd f pid).2 = int32 (pid + (k : Int)) ∧
      filaLogica (preencherFila k i rnd f pid).1 = filaLogica f ++
        (List.range k).map (fun j => (gerarPeca (rnd (i + j)) (int32 (pid + (j : Int)))).1) := by
  induction k with
  | zero =>
    intro i rnd f pid hwf _ hpid
    simp [preencherFila, hwf, hpid]
  | succ k ih =>
    intro i rnd f pid hwf hk hpid
    have hlt : f.tamanho < (QUEUE_CAP : Int) := by push_cast at hk ⊢; omega
    obtain ⟨_, e2, e3, e4, e5⟩ := enfileirar_ok f (gerarPeca (rnd i) pid).1 hwf hlt
    have hk2 : (enfileirar f (gerarPeca (rnd i) pid).1).2.tamanho + (k : Int)
        ≤ (QUEUE_CAP : Int) := by rw [e4]; push_cast at hk ⊢; omega
    have hpid2 : int32 (gerarPeca (rnd i) pid).2 = (gerarPeca (rnd i) pid).2 := by
      rw [(gerarPeca_id _ _).2, int32_idem]
    obtain ⟨i1, i2, i3, i4, i5⟩ :=
      ih (i + 1) rnd (enfileirar f (gerarPeca (rnd i) pid).1).2 (gerarPeca (rnd i) pid).2 e2 hk2
        hpid2
    refine ⟨i1, ?_, ?_, ?_, ?_⟩
    · show (preencherFila k (i + 1) rnd _ _).1.tamanho = _
      rw [i2, e4]; push_cast; ring
    · show (preencherFila k (i + 1) rnd _ _).1.frente = _
      rw [i3, e5]
    · show (preencherFila k (i + 1) rnd _ _).2 = _
      rw [i4, (gerarPeca_id _ _).2, int32_soma]; push_cast
      rw [add_assoc, add_comm (1 : Int) (k : Int)]
    · show filaLogica (preencherFila k (i + 1) rnd _ _).1 = _
      rw [i5, e3, List.range_succ_eq_map, (gerarPeca_id _ _).2]
      simp only [List.map_cons, List.map_map, Function.comp_def, List.append_assoc,
        List.singleton_append, Nat.cast_zero, add_zero, hpid, Nat.succ_eq_add_one]
      congr 2
      apply List.map_congr_left
      intro j _
      rw [int32_soma]
      push_cast
      rw [add_assoc i 1 j, add_comm 1 j, add_assoc pid 1 (j : Int), add_comm (1 : Int) (j : Int)]

/-! ## Invariants of the menu loop -/

/-- An action only takes ids out of the containers. -/
theorem aplicarAcao_sublista (a : Acao) (s : Estado) (hwf : s.bemFormado) :
    (idsContidos (aplicarAcao a s).1).Sublist (idsContidos s) := by
  obtain ⟨_, _, h | ⟨h, _, _, hq, _, hp⟩ | ⟨h, _, _, hq, _, hp, _⟩ | ⟨h, _, _, hp, _, hq⟩⟩ :=
    aplicarAcao_casos a s hwf
  · rw [h.1]
  · unfold idsContidos
    rw [hq, hp]
    exact List.Sublist.map _ (List.Sublist.append_left (List.sublist_cons_self _ _) _)
  · unfold idsContidos
    rw [hq, hp]
    simp
  · unfold idsContidos
    rw [hp, hq]
    exact List.Sublist.map _ (List.Sublist.append_right (List.sublist_append_left _ _) _)

theorem passo_bemFormado (a : Acao) (r : Nat) (s : Estado) (hwf : s.bemFormado) :
    (passo a r s).bemFormado :=
  (repor_casos r _ (aplicarAcao_casos a s hwf).1).1

/-- After an action on a full queue the queue is full or one short, and it is
one short exactly when the action printed a piece taken from the queue. -/
theorem aplicarAcao_cheia (a : Acao) (s : Estado) (hwf : s.bemFormado)
    (hc : s.fila.tamanho = (QUEUE_CAP : Int)) :
    ((aplicarAcao a s).1.fila = s.fila ∧
      ∀ h, (aplicarAcao a s).2 ≠ Msg.jogou h ∧ (aplicarAcao a s).2 ≠ Msg.reservou h ∧
        (aplicarAcao a s).2 ≠ Msg.descartadaNaReserva h) ∨
    ((aplicarAcao a s).1.fila.tamanho = (QUEUE_CAP : Int) - 1 ∧
      ∃ h, (aplicarAcao a s).2 = Msg.jogou h ∨ (aplicarAcao a s).2 = Msg.reservou h) := by
  obtain ⟨_, _, h | ⟨h, _, hm, _, ht, _⟩ | ⟨h, _, hm, _, ht, _⟩ | ⟨h, _, hm, _, _, hq⟩⟩ :=
    aplicarAcao_casos a s hwf
  · left
    refine ⟨by rw [h.1], ?_⟩
    intro x
    have hn := h.2
    refine ⟨?_, ?_, ?_⟩ <;> intro hx <;> rw [hx] at hn <;> simp [Msg.removida] at hn
  · right
    exact ⟨by rw [ht, hc], h, Or.inl hm⟩
  · right
    exact ⟨by rw [ht, hc], h, Or.inr hm⟩
  · left
    refine ⟨hq, ?_⟩
    intro x
    rw [hm]
    simp

theorem passo_cheia (a : Acao) (r : Nat) (s : Estado) (hwf : s.bemFormado)
    (hc : s.fila.tamanho = (QUEUE_CAP : Int)) :
    (passo a r s).fila.tamanho = (QUEUE_CAP : Int) := by
  obtain ⟨hwf1, _, _⟩ := aplicarAcao_casos a s hwf
  obtain ⟨_, _, _, ⟨hc1, hf, _⟩ | ⟨hlt, _, ht, _⟩⟩ := repor_casos r (aplicarAcao a s).1 hwf1
  · show (repor r (aplicarAcao a s).1).1.fila.tamanho = _
    rw [hf, hc1]
  · show (repor r (aplicarAcao a s).1).1.fila.tamanho = _
    rw [ht]
    rcases aplicarAcao_cheia a s hwf hc with ⟨h, _⟩ | ⟨h, _⟩
    · rw [h, hc] at hlt
      exact absurd hlt (lt_irrefl _)
    · rw [h]; ring

/-- The state in which the menu loop is entered. -/
theorem inicio_ok (f0 : Fila) (p0 : Pilha) (rnd : Nat → Nat) :
    (inicio f0 p0 rnd).bemFormado ∧
    (inicio f0 p0 rnd).fila.tamanho = (QUEUE_CAP : Int) ∧
    (inicio f0 p0 rnd).pilha.topo = 0 ∧
    (inicio f0 p0 rnd).proximoId = (QUEUE_CAP : Int) ∧
    filaLogica (inicio f0 p0 rnd).fila =
      (List.range QUEUE_CAP).map (fun j => (gerarPeca (rnd j) (j : Int)).1) := by
  have hwf : (initFila f0).bemFormada := by
    simp [initFila, Fila.bemFormada]
  have hk : (initFila f0).tamanho + ((QUEUE_CAP : Nat) : Int) ≤ (QUEUE_CAP : Int) := by
    simp [initFila]
  have h0 : int32 0 = 0 := by decide
  obtain ⟨h1, h2, _, h4, h5⟩ := preencherFila_ok QUEUE_CAP 0 rnd (initFila f0) 0 hwf hk h0
  have hr : List.range QUEUE_CAP = [0, 1, 2, 3, 4] := by decide
  have hi1 : int32 1 = 1 := by decide
  have hi2 : int32 2 = 2 := by decide
  have hi3 : int32 3 = 3 := by decide
  have hi4 : int32 4 = 4 := by decide
  have hl0 : filaLogica (initFila f0) = [] := by simp [filaLogica, initFila]
  have hq : filaLogica (inicio f0 p0 rnd).fila =
      (List.range QUEUE_CAP).map (fun j => (gerarPeca (rnd j) (j : Int)).1) := by
    show filaLogica (preencherFila QUEUE_CAP 0 rnd (initFila f0) 0).1 = _
    rw [h5, hl0, hr]
    simp [h0, hi1, hi2, hi3, hi4]
  have hp : pilhaBaseTopo (inicio f0 p0 rnd).pilha = [] := by
    simp [inicio, initPilha, pilhaBaseTopo]
  have hpid : (inicio f0 p0 rnd).proximoId = (QUEUE_CAP : Int) := by
    show (preencherFila QUEUE_CAP 0 rnd (initFila f0) 0).2 = _
    rw [h4]; decide
  refine ⟨⟨h1, ?_⟩, ?_, ?_, hpid, hq⟩
  · simp [inicio, initPilha, Pilha.bemFormada]
  · show (preencherFila QUEUE_CAP 0 rnd (initFila f0) 0).1.tamanho = _
    rw [h2]; simp [initFila]
  · simp [inicio, initPilha]

/-- Every state of a run is well formed and has a full queue. -/
theorem executar_ok (acts : List (Acao × Nat)) :
    ∀ s : Estado, s.bemFormado → s.fila.tamanho = (QUEUE_CAP : Int) →
      (executar acts s).bemFormado ∧ (executar acts s).fila.tamanho = (QUEUE_CAP : Int) := by
  induction acts with
  | nil => intro s h hc; exact ⟨h, hc⟩
  | cons x xs ih =>
    intro s h hc
    obtain ⟨a, r⟩ := x
    exact ih (passo a r s) (passo_bemFormado a r s h) (passo_cheia a r s h hc)

theorem sessao_ok (f0 : Fila) (p0 : Pilha) (rnd : Nat → Nat) (acts : List (Acao × Nat)) :
    (executar acts (inicio f0 p0 rnd)).bemFormado ∧
      (executar acts (inicio f0 p0 rnd)).fila.tamanho = (QUEUE_CAP : Int) := by
  obtain ⟨h, hc, _⟩ := inicio_ok f0 p0 rnd
  exact executar_ok acts _ h hc

/-! ## Capacity, FIFO order and LIFO order -/

/-- C1 (capacity invariant): in every state of a session, reached from the
initial state by any finite run of actions each followed by the replenishing
step, and in the state between a further action and its replenishing step, the
queue count is between 0 and `QUEUE_CAP` and the stack count between 0 and
`STACK_CAP`. -/
theorem capacidade_invariante (f0 : Fila) (p0 : Pilha) (rnd : Nat → Nat)
    (acts : List (Acao × Nat)) (a : Acao) :
    (executar acts (inicio f0 p0 rnd)).dentroDaCapacidade ∧
      (aplicarAcao a (executar acts (inicio f0 p0 rnd))).1.dentroDaCapacidade := by
  obtain ⟨hwf, _⟩ := sessao_ok f0 p0 rnd acts
  have hwf2 := (aplicarAcao_casos a _ hwf).1
  obtain ⟨⟨_, _, h3, h4⟩, h5, h6⟩ := hwf
  obtain ⟨⟨_, _, g3, g4⟩, g5, g6⟩ := hwf2
  exact ⟨⟨h3, h4, h5, h6⟩, ⟨g3, g4, g5, g6⟩⟩

theorem enfileirarTodas_ok (es : List Peca) :
    ∀ f : Fila, f.bemFormada → f.tamanho + (es.length : Int) ≤ (QUEUE_CAP : Int) →
      (enfileirarTodas f es).1 = List.replicate es.length 1 ∧
      (enfileirarTodas f es).2.bemFormada ∧
      filaLogica (enfileirarTodas f es).2 = filaLogica f ++ es := by
  induction es with
  | nil => intro f hwf _; simp [enfileirarTodas, hwf]
  | cons e es ih =>
    intro f hwf hn
    have hlt : f.tamanho < (QUEUE_CAP : Int) := by
      simp only [List.length_cons] at hn; push_cast at hn ⊢; omega
    obtain ⟨e1, e2, e3, e4, _⟩ := enfileirar_ok f e hwf hlt
    have hn2 : (enfileirar f e).2.tamanho + (es.length : Int) ≤ (QUEUE_CAP : Int) := by
      rw [e4]; simp only [List.length_cons] at hn; push_cast at hn ⊢; omega
    obtain ⟨i1, i2, i3⟩ := ih (enfileirar f e).2 e2 hn2
    refine ⟨?_, i2, ?_⟩
    · show (enfileirar f e).1 :: (enfileirarTodas (enfileirar f e).2 es).1 = _
      rw [e1, i1]; rfl
    · show filaLogica (enfileirarTodas (enfileirar f e).2 es).2 = _
      rw [i3, e3]; simp

theorem desenfileirarVarias_ok (xs : List Peca) :
    ∀ (f : Fila) (out : Peca), f.bemFormada → filaLogica f = xs →
      (desenfileirarVarias xs.length f out).1 = xs.map (fun x => (1, x)) ∧
      (desenfileirarVarias xs.length f out).2.bemFormada ∧
      (desenfileirarVarias xs.length f out).2.tamanho = 0 ∧
      (desenfileirarVarias xs.length f out).2.dados = f.dados := by
  induction xs with
  | nil =>
    intro f out hwf hx
    have hl := filaLogica_length f
    rw [hx] at hl
    have h0 : f.tamanho = 0 := by
      have := hwf.2.2.1
      simp at hl; omega
    exact ⟨rfl, hwf, h0, rfl⟩
  | cons x xs ih =>
    intro f out hwf hx
    have hl := filaLogica_length f
    rw [hx] at hl
    have hpos : 0 < f.tamanho := by
      simp at hl; omega
    obtain ⟨d1, d2, d3, _, d5⟩ := desenfileirar_ok f out hwf hpos
    rw [hx] at d3
    obtain ⟨hh, ht⟩ := List.cons.inj d3
    obtain ⟨i1, i2, i3, i4⟩ := ih (desenfileirar f out).2.1 (desenfileirar f out).2.2 d2 ht.symm
    refine ⟨?_, i2, i3, ?_⟩
    · show ((desenfileirar f out).1, (desenfileirar f out).2.2) :: (desenfileirarVarias xs.length _ _).1 = _
      rw [i1, d1, ← hh]; rfl
    · show (desenfileirarVarias xs.length _ _).2.dados = _
      rw [i4, d5]

/-- C2 (FIFO order): on an empty queue with any head index in
`[0, QUEUE_CAP)`, enqueueing `n ≤ QUEUE_CAP` pieces succeeds every time, and
the `n` dequeues that follow succeed every time and give back the pieces in
the order they were enqueued, leaving the queue empty. -/
theorem fifo_ordem (f : Fila) (es : List Peca) (out : Peca)
    (hvazia : f.tamanho = 0) (hfr : 0 ≤ f.frente ∧ f.frente < (QUEUE_CAP : Int))
    (hn : es.length ≤ QUEUE_CAP) :
    (enfileirarTodas f es).1 = List.replicate es.length 1 ∧
    (desenfileirarVarias es.length (enfileirarTodas f es).2 out).1 = es.map (fun e => (1, e)) ∧
    (desenfileirarVarias es.length (enfileirarTodas f es).2 out).2.tamanho = 0 ∧
    filaLogica (desenfileirarVarias es.length (enfileirarTodas f es).2 out).2 = [] := by
  have hwf : f.bemFormada := ⟨hfr.1, hfr.2, by rw [hvazia], by rw [hvazia]; decide⟩
  have hcap : f.tamanho + (es.length : Int) ≤ (QUEUE_CAP : Int) := by
    have hn5 : es.length ≤ 5 := hn
    rw [hvazia]
    show (0 : Int) + (es.length : Int) ≤ ((5 : Nat) : Int)
    push_cast; omega
  obtain ⟨e1, e2, e3⟩ := enfileirarTodas_ok es f hwf hcap
  have hl0 : filaLogica f = [] := by simp [filaLogica, hvazia]
  rw [hl0, List.nil_append] at e3
  obtain ⟨d1, _, d3, _⟩ := desenfileirarVarias_ok es (enfileirarTodas f es).2 out e2 e3
  refine ⟨e1, d1, d3, ?_⟩
  simp [filaLogica, d3]

/-- The claim C2 at a queue whose head is at index 3, so that the ring wraps
around: three pieces go in and come out in the same order. -/
theorem fifo_ordem_witness :
    (filaDe Peca.indet 3 0).tamanho = 0 ∧
    (enfileirarTodas (filaDe Peca.indet 3 0) [⟨'I', 10⟩, ⟨'O', 11⟩, ⟨'T', 12⟩]).1 = [1, 1, 1] ∧
    (desenfileirarVarias 3
      (enfileirarTodas (filaDe Peca.indet 3 0) [⟨'I', 10⟩, ⟨'O', 11⟩, ⟨'T', 12⟩]).2 Peca.indet).1
      = [(1, ⟨'I', 10⟩), (1, ⟨'O', 11⟩), (1, ⟨'T', 12⟩)] :=
  have h := fifo_ordem (filaDe Peca.indet 3 0) [⟨'I', 10⟩, ⟨'O', 11⟩, ⟨'T', 12⟩] Peca.indet
    (by decide) (by decide) (by decide)
  ⟨by decide, h.1, h.2.1⟩

theorem empilharTodas_ok (xs : List Peca) :
    ∀ p : Pilha, p.bemFormada → p.topo + (xs.length : Int) ≤ (STACK_CAP : Int) →
      (empilharTodas p xs).1 = List.replicate xs.length 1 ∧
      (empilharTodas p xs).2.bemFormada ∧
      pilhaBaseTopo (empilharTodas p xs).2 = pilhaBaseTopo p ++ xs ∧
      (empilharTodas p xs).2.topo = p.topo + (xs.length : Int) := by
  induction xs with
  | nil => intro p hwf _; simp [empilharTodas, hwf]
  | cons x xs ih =>
    intro p hwf hn
    have hlt : p.topo < (STACK_CAP : Int) := by
      simp only [List.length_cons] at hn; push_cast at hn ⊢; omega
    obtain ⟨e1, e2, e3, e4⟩ := empilhar_ok p x hwf hlt
    have hn2 : (empilhar p x).2.topo + (xs.length : Int) ≤ (STACK_CAP : Int) := by
      rw [e4]; simp only [List.length_cons] at hn; push_cast at hn ⊢; omega
    obtain ⟨i1, i2, i3, i4⟩ := ih (empilhar p x).2 e2 hn2
    refine ⟨?_, i2, ?_, ?_⟩
    · show (empilhar p x).1 :: (empilharTodas (empilhar p x).2 xs).1 = _
      rw [e1, i1]; rfl
    · show pilhaBaseTopo (empilharTodas (empilhar p x).2 xs).2 = _
      rw [i3, e3]; simp
    · show (empilharTodas (empilhar p x).2 xs).2.topo = _
      rw [i4, e4]; simp only [List.length_cons]; push_cast; ring

theorem desempilharVarias_ok (ys : List Peca) :
    ∀ (q : Pilha) (out : Peca) (base : List Peca), q.bemFormada →
      pilhaBaseTopo q = base ++ ys.reverse →
      (desempilharVarias ys.length q out).1 = ys.map (fun y => (1, y)) ∧
      (desempilharVarias ys.length q out).2.bemFormada ∧
      pilhaBaseTopo (desempilharVarias ys.length q out).2 = base ∧
      (desempilharVarias ys.length q out).2.topo = q.topo - (ys.length : Int) ∧
      (desempilharVarias ys.length q out).2.dados = q.dados := by
  induction ys with
  | nil =>
    intro q out base hwf hb
    simp [desempilharVarias, hwf, hb]
  | cons y ys ih =>
    intro q out base hwf hb
    have hl := pilhaBaseTopo_length q
    rw [hb] at hl
    have hpos : 0 < q.topo := by
      simp at hl; omega
    obtain ⟨d1, d2, d3, d4, d5⟩ := desempilhar_ok q out hwf hpos
    rw [hb, List.reverse_cons, ← List.append_assoc] at d3
    obtain ⟨hbase, htop⟩ := List.append_inj' d3 rfl
    obtain ⟨i1, i2, i3, i4, i5⟩ :=
      ih (desempilhar q out).2.1 (desempilhar q out).2.2 base d2 hbase.symm
    refine ⟨?_, i2, i3, ?_, ?_⟩
    · show ((desempilhar q out).1, (desempilhar q out).2.2) ::
        (desempilharVarias ys.length _ _).1 = _
      have hy : y = (desempilhar q out).2.2 := by simpa using htop
      rw [i1, d1, ← hy]; rfl
    · show (desempilharVarias ys.length _ _).2.topo = _
      rw [i4, d4]; simp only [List.length_cons]; push_cast; ring
    · show (desempilharVarias ys.length _ _).2.dados = _
      rw [i5, d5]

theorem pilhaBaseTopo_ler (p q : Pilha) (ht : q.topo = p.topo)
    (h : pilhaBaseTopo q = pilhaBaseTopo p) (i : Int) (h0 : 0 ≤ i) (hi : i < p.topo) :
    lerDados q.dados i = lerDados p.dados i := by
  unfold pilhaBaseTopo at h
  rw [ht, List.map_inj_left] at h
  have := h i.toNat (by rw [List.mem_range]; omega)
  rwa [Int.toNat_of_nonneg h0] at this

/-- C3 (LIFO order): on a stack holding `k` pieces, pushing `n` pieces with
`k + n ≤ STACK_CAP` succeeds every time, and the `n` pops that follow succeed
every time and give back the pieces in the reverse order; afterwards `topo` is
`k` again and the `k` pieces below are unchanged. -/
theorem lifo_ordem (p : Pilha) (xs : List Peca) (out : Peca) (hk : 0 ≤ p.topo)
    (hn : p.topo + (xs.length : Int) ≤ (STACK_CAP : Int)) :
    (empilharTodas p xs).1 = List.replicate xs.length 1 ∧
    (desempilharVarias xs.length (empilharTodas p xs).2 out).1
      = xs.reverse.map (fun x => (1, x)) ∧
    (desempilharVarias xs.length (empilharTodas p xs).2 out).2.topo = p.topo ∧
    ∀ i : Int, 0 ≤ i → i < p.topo →
      lerDados (desempilharVarias xs.length (empilharTodas p xs).2 out).2.dados i
        = lerDados p.dados i := by
  have hwf : p.bemFormada := ⟨hk, by linarith [Int.ofNat_nonneg xs.length]⟩
  obtain ⟨e1, e2, e3, e4⟩ := empilharTodas_ok xs p hwf hn
  have hb : pilhaBaseTopo (empilharTodas p xs).2 = pilhaBaseTopo p ++ xs.reverse.reverse := by
    rw [List.reverse_reverse]; exact e3
  obtain ⟨d1, _, d3, d4, _⟩ :=
    desempilharVarias_ok xs.reverse (empilharTodas p xs).2 out (pilhaBaseTopo p) e2 hb
  rw [List.length_reverse] at d1 d3 d4
  have ht : (desempilharVarias xs.length (empilharTodas p xs).2 out).2.topo = p.topo := by
    rw [d4, e4]; ring
  exact ⟨e1, d1, ht, fun i h0 hi => pilhaBaseTopo_ler p _ ht d3 i h0 hi⟩

/-- The claim C3 at a stack that already holds one piece: two pieces are
pushed and popped in reverse order, and the piece below stays. -/
theorem lifo_ordem_witness :
    (0 : Int) ≤ (Pilha.mk [⟨'L', 1⟩, ⟨'I', 2⟩, ⟨'O', 3⟩] 1 rfl).topo ∧
    (desempilharVarias 2
      (empilharTodas (Pilha.mk [⟨'L', 1⟩, ⟨'I', 2⟩, ⟨'O', 3⟩] 1 rfl)
        [⟨'T', 7⟩, ⟨'I', 8⟩]).2 Peca.indet).1 = [(1, ⟨'I', 8⟩), (1, ⟨'T', 7⟩)] ∧
    lerDados (desempilharVarias 2
      (empilharTodas (Pilha.mk [⟨'L', 1⟩, ⟨'I', 2⟩, ⟨'O', 3⟩] 1 rfl)
        [⟨'T', 7⟩, ⟨'I', 8⟩]).2 Peca.indet).2.dados 0 = ⟨'L', 1⟩ :=
  have h := lifo_ordem (Pilha.mk [⟨'L', 1⟩, ⟨'I', 2⟩, ⟨'O', 3⟩] 1 rfl)
    [⟨'T', 7⟩, ⟨'I', 8⟩] Peca.indet (by decide) (by decide)
  ⟨by decide, h.2.1, h.2.2.2 0 (by decide) (by decide)⟩

/-! ## The ids of the pieces created -/

theorem aplicarAcao_proximoId (a : Acao) (s : Estado) :
    (aplicarAcao a s).1.proximoId = s.proximoId := by
  cases a <;> rfl

theorem passo_proximoId (a : Acao) (r : Nat) (s : Estado) :
    (passo a r s).proximoId = int32 (s.proximoId + 1) := by
  have h : (passo a r s).proximoId = (gerarPeca r (aplicarAcao a s).1.proximoId).2 := by
    unfold passo repor reporFilaComNovaPeca
    dsimp only
    split <;> rfl
  rw [h, (gerarPeca_id _ _).2, aplicarAcao_proximoId]

theorem aplicarAcao_sublista_fila (a : Acao) (s : Estado) (hwf : s.bemFormado) :
    (idsFila (aplicarAcao a s).1).Sublist (idsFila s) := by
  obtain ⟨_, _, h | ⟨h, _, _, hq, _, _⟩ | ⟨h, _, _, hq, _, _, _⟩ | ⟨h, _, _, _, _, hq⟩⟩ :=
    aplicarAcao_casos a s hwf
  · rw [h.1]
  · unfold idsFila
    rw [hq]
    exact List.Sublist.map _ (List.sublist_cons_self _ _)
  · unfold idsFila
    rw [hq]
    exact List.Sublist.map _ (List.sublist_cons_self _ _)
  · unfold idsFila
    rw [hq]

theorem repor_ids_fila (r : Nat) (s : Estado) (hwf : s.bemFormado) :
    idsFila (repor r s).1 = idsFila s ∨ idsFila (repor r s).1 = idsFila s ++ [s.proximoId] := by
  obtain ⟨_, _, _, ⟨_, hf, _⟩ | ⟨_, hf, _, _⟩⟩ := repor_casos r s hwf
  · left
    unfold idsFila
    rw [hf]
  · right
    unfold idsFila
    rw [hf]
    simp [(gerarPeca_id _ _).1]

theorem passo_fila (a : Acao) (r : Nat) (s : Estado) :
    (passo a r s).fila = (enfileirar (aplicarAcao a s).1.fila (gerarPeca r s.proximoId).1).2 := by
  unfold passo repor reporFilaComNovaPeca
  dsimp only
  rw [aplicarAcao_proximoId]
  split <;> rfl

theorem passo_pilha (a : Acao) (r : Nat) (s : Estado) :
    (passo a r s).pilha = (aplicarAcao a s).1.pilha := rfl

/-- C6 (the queue is kept full): at session start and after every step (an
action followed by the replenishing step) the queue holds `QUEUE_CAP` pieces,
for every run and every random values; between an action and its replenishing
step the queue is either untouched and full, or one short because the action
took out its front piece, and the replenishing step fills it again. -/
theorem fila_mantida_cheia (f0 : Fila) (p0 : Pilha) (rnd : Nat → Nat)
    (acts : List (Acao × Nat)) (a : Acao) (r : Nat) :
    (executar acts (inicio f0 p0 rnd)).fila.tamanho = (QUEUE_CAP : Int) ∧
    (((aplicarAcao a (executar acts (inicio f0 p0 rnd))).1.fila
          = (executar acts (inicio f0 p0 rnd)).fila ∧
        ∀ h, (aplicarAcao a (executar acts (inicio f0 p0 rnd))).2 ≠ Msg.jogou h ∧
          (aplicarAcao a (executar acts (inicio f0 p0 rnd))).2 ≠ Msg.reservou h ∧
          (aplicarAcao a (executar acts (inicio f0 p0 rnd))).2 ≠ Msg.descartadaNaReserva h) ∨
      ((aplicarAcao a (executar acts (inicio f0 p0 rnd))).1.fila.tamanho
          = (QUEUE_CAP : Int) - 1 ∧
        ∃ h, (aplicarAcao a (executar acts (inicio f0 p0 rnd))).2 = Msg.jogou h ∨
          (aplicarAcao a (executar acts (inicio f0 p0 rnd))).2 = Msg.reservou h)) ∧
    (passo a r (executar acts (inicio f0 p0 rnd))).fila.tamanho = (QUEUE_CAP : Int) := by
  obtain ⟨hwf, hc⟩ := sessao_ok f0 p0 rnd acts
  exact ⟨hc, aplicarAcao_cheia a _ hwf hc, passo_cheia a r _ hwf hc⟩

/-- C8 (Reserve on a full stack does nothing): when `topo` is `STACK_CAP`,
`reservarPeca` returns the queue and the stack exactly as they were, whatever
the queue, and the counter is not touched; the replenishing step that follows
still runs. -/
theorem reservar_pilha_cheia (s : Estado) (r : Nat) (h : s.pilha.topo = (STACK_CAP : Int)) :
    reservarPeca s.fila s.pilha = (s.fila, s.pilha, Msg.pilhaCheiaReservar) ∧
    aplicarAcao Acao.reservar s = (s, Msg.pilhaCheiaReservar) ∧
    (passo Acao.reservar r s).proximoId = int32 (s.proximoId + 1) ∧
    (passo Acao.reservar r s).pilha = s.pilha ∧
    (passo Acao.reservar r s).fila = (enfileirar s.fila (gerarPeca r s.proximoId).1).2 ∧
    (INT_MIN ≤ s.proximoId → s.proximoId < INT_MAX →
      (passo Acao.reservar r s).proximoId = s.proximoId + 1) := by
  have h1 := reservarPeca_cheia s.fila s.pilha h
  have h2 : aplicarAcao Acao.reservar s = (s, Msg.pilhaCheiaReservar) := by
    simp [aplicarAcao, h1]
  refine ⟨h1, h2, passo_proximoId _ _ _, ?_, ?_, ?_⟩
  · rw [passo_pilha, h2]
  · rw [passo_fila, h2]
  · intro hmin hmax
    rw [passo_proximoId]
    exact int32_no_intervalo _ (by unfold INT_MIN at *; omega) (by unfold INT_MAX at *; omega)

/-- The claim C8 on the example session: after three Reserves the stack is
full, the fourth Reserve changes neither container, and the replenishing step
that follows it still consumes an id. -/
theorem reservar_pilha_cheia_witness :
    (executar tresReservas sessaoExemplo).pilha.topo = (STACK_CAP : Int) ∧
    idsPilha (executar tresReservas sessaoExemplo) = [0, 1, 2] ∧
    aplicarAcao Acao.reservar (executar tresReservas sessaoExemplo)
      = (executar tresReservas sessaoExemplo, Msg.pilhaCheiaReservar) ∧
    (passo Acao.reservar 3 (executar tresReservas sessaoExemplo)).proximoId
      = (executar tresReservas sessaoExemplo).proximoId + 1 ∧
    (executar tresReservas sessaoExemplo).proximoId = 8 :=
  have h := reservar_pilha_cheia (executar tresReservas sessaoExemplo) 3 (by decide)
  ⟨by decide, by decide, h.2.1, h.2.2.2.2.2 (by decide) (by decide), by decide⟩

/-- A successful `empilhar` leaves the slots below the old top as they were. -/
theorem empilhar_abaixo (p : Pilha) (x : Peca) (hwf : p.bemFormada)
    (hlt : p.topo < (STACK_CAP : Int)) (i : Int) (h0 : 0 ≤ i) (hi : i < p.topo) :
    lerDados (empilhar p x).2.dados i = lerDados p.dados i := by
  obtain ⟨dados, t, hlen⟩ := p
  obtain ⟨a, b, c, rfl⟩ := lista_de_tres dados hlen
  obtain ⟨h1, _⟩ := hwf
  simp only at h1 hlt hi
  interval_cases t <;> interval_cases i <;> rfl

/-- C9 (Reserve moves the queue head to the stack top): on a well-formed state
whose stack is not full and whose queue reads `h :: resto`, `reservarPeca`
leaves a queue that reads `resto` and a stack that reads, base to top, as
before followed by `h`; `topo` goes up by one, the slots below are unchanged
and the counter is untouched. -/
theorem reservar_move_frente (s : Estado) (h : Peca) (resto : List Peca)
    (hwf : s.bemFormado) (htopo : s.pilha.topo < (STACK_CAP : Int))
    (hq : filaLogica s.fila = h :: resto) :
    (aplicarAcao Acao.reservar s).2 = Msg.reservou h ∧
    filaLogica (aplicarAcao Acao.reservar s).1.fila = resto ∧
    pilhaBaseTopo (aplicarAcao Acao.reservar s).1.pilha = pilhaBaseTopo s.pilha ++ [h] ∧
    pilhaTopoBase (aplicarAcao Acao.reservar s).1.pilha = h :: pilhaTopoBase s.pilha ∧
    (aplicarAcao Acao.reservar s).1.pilha.topo = s.pilha.topo + 1 ∧
    (∀ i : Int, 0 ≤ i → i < s.pilha.topo →
      lerDados (aplicarAcao Acao.reservar s).1.pilha.dados i = lerDados s.pilha.dados i) ∧
    (aplicarAcao Acao.reservar s).1.proximoId = s.proximoId := by
  obtain ⟨hf, hp⟩ := hwf
  have hpos : 0 < s.fila.tamanho := by
    have hl := filaLogica_length s.fila
    rw [hq] at hl
    simp at hl; omega
  obtain ⟨_, _, d3, _, _⟩ := desenfileirar_ok s.fila Peca.indet hf hpos
  rw [hq] at d3
  obtain ⟨hh, hr⟩ := List.cons.inj d3
  obtain ⟨_, _, e3, e4⟩ := empilhar_ok s.pilha h hp htopo
  have hres := reservarPeca_ok s.fila s.pilha hf hp htopo hpos
  rw [← hh] at hres
  have h1 : (aplicarAcao Acao.reservar s).2 = Msg.reservou h := by
    simp [aplicarAcao, hres]
  have h2 : (aplicarAcao Acao.reservar s).1.fila = (desenfileirar s.fila Peca.indet).2.1 := by
    simp [aplicarAcao, hres]
  have h3 : (aplicarAcao Acao.reservar s).1.pilha = (empilhar s.pilha h).2 := by
    simp [aplicarAcao, hres]
  refine ⟨h1, ?_, ?_, ?_, ?_, ?_, rfl⟩
  · rw [h2, ← hr]
  · rw [h3, e3]
  · unfold pilhaTopoBase
    rw [h3, e3]; simp
  · rw [h3, e4]
  · intro i h0 hi
    rw [h3]
    exact empilhar_abaixo s.pilha h hp htopo i h0 hi

/-- The claim C9 on the example session: the first Reserve moves the piece
with id 0, and after three Reserve steps, whose heads were the pieces with ids
0, 1 and 2, the stack reads 2, 1, 0 from top to base. -/
theorem reservar_move_frente_witness :
    filaLogica sessaoExemplo.fila
      = ⟨'I', 0⟩ :: [⟨'O', 1⟩, ⟨'T', 2⟩, ⟨'L', 3⟩, ⟨'I', 4⟩] ∧
    (aplicarAcao Acao.reservar sessaoExemplo).2 = Msg.reservou ⟨'I', 0⟩ ∧
    filaLogica (aplicarAcao Acao.reservar sessaoExemplo).1.fila
      = [⟨'O', 1⟩, ⟨'T', 2⟩, ⟨'L', 3⟩, ⟨'I', 4⟩] ∧
    pilhaTopoBase (aplicarAcao Acao.reservar sessaoExemplo).1.pilha
      = ⟨'I', 0⟩ :: pilhaTopoBase sessaoExemplo.pilha ∧
    (pilhaTopoBase (executar tresReservas sessaoExemplo).pilha).map Peca.id = [2, 1, 0] :=
  have h := reservar_move_frente sessaoExemplo ⟨'I', 0⟩
    [⟨'O', 1⟩, ⟨'T', 2⟩, ⟨'L', 3⟩, ⟨'I', 4⟩] (by decide) (by decide) (by decide)
  ⟨by decide, h.1, h.2.1, h.2.2.2.1, by decide⟩

theorem retornosDoInicio_ok (k : Nat) :
    ∀ (i : Nat) (rnd : Nat → Nat) (f : Fila) (pid : Int), f.bemFormada →
      f.tamanho + (k : Int) ≤ (QUEUE_CAP : Int) →
      retornosDoInicio k i rnd f pid = List.replicate k 1 := by
  induction k with
  | zero => intro i rnd f pid _ _; rfl
  | succ k ih =>
    intro i rnd f pid hwf hk
    have hlt : f.tamanho < (QUEUE_CAP : Int) := by push_cast at hk ⊢; omega
    obtain ⟨e1, e2, _, e4, _⟩ := enfileirar_ok f (gerarPeca (rnd i) pid).1 hwf hlt
    have hk2 : (enfileirar f (gerarPeca (rnd i) pid).1).2.tamanho + (k : Int)
        ≤ (QUEUE_CAP : Int) := by rw [e4]; push_cast at hk ⊢; omega
    show (enfileirar f (gerarPeca (rnd i) pid).1).1 :: retornosDoInicio k (i + 1) rnd _ _ = _
    rw [ih (i + 1) rnd _ _ e2 hk2, e1]
    rfl

/-- C11 (session construction): after `initFila`, `initPilha` and the filling
loop, whatever the uninitialised memory and the random values, each of the
`QUEUE_CAP` calls of `enfileirar` returned 1, the queue is full and reads the
pieces created with ids 0, 1, ..., `QUEUE_CAP - 1` from front to end, the stack
is empty and the counter is `QUEUE_CAP`. -/
theorem construcao_da_sessao (f0 : Fila) (p0 : Pilha) (rnd : Nat → Nat) :
    retornosDoInicio QUEUE_CAP 0 rnd (initFila f0) 0 = List.replicate QUEUE_CAP 1 ∧
    (inicio f0 p0 rnd).fila.tamanho = (QUEUE_CAP : Int) ∧
    filaLogica (inicio f0 p0 rnd).fila =
      (List.range QUEUE_CAP).map (fun j => (gerarPeca (rnd j) (j : Int)).1) ∧
    (filaLogica (inicio f0 p0 rnd).fila).map Peca.id
      = (List.range QUEUE_CAP).map (fun (j : Nat) => (j : Int)) ∧
    (inicio f0 p0 rnd).pilha.topo = 0 ∧
    pilhaBaseTopo (inicio f0 p0 rnd).pilha = [] ∧
    (inicio f0 p0 rnd).proximoId = (QUEUE_CAP : Int) := by
  obtain ⟨_, hc, ht, hpid, hq⟩ := inicio_ok f0 p0 rnd
  have hwf : (initFila f0).bemFormada := by simp [initFila, Fila.bemFormada]
  have hk : (initFila f0).tamanho + ((QUEUE_CAP : Nat) : Int) ≤ (QUEUE_CAP : Int) := by
    simp [initFila]
  refine ⟨retornosDoInicio_ok QUEUE_CAP 0 rnd _ 0 hwf hk, hc, hq, ?_, ht, ?_, hpid⟩
  · rw [hq, List.map_map]
    apply List.map_congr_left
    intro j _
    exact (gerarPeca_id _ _).1
  · simp [pilhaBaseTopo, ht]

theorem ler_escrever_outro (xs : List Peca) (i q : Int) (p : Peca) (h : q ≠ i) :
    lerDados (escreverDados xs i p) q = lerDados xs q := by
  unfold lerDados escreverDados
  by_cases hi : 0 ≤ i ∧ i < xs.length
  · rw [if_pos hi, List.length_set]
    by_cases hq : 0 ≤ q ∧ q < xs.length
    · rw [if_pos hq, if_pos hq]
      have hne : i.toNat ≠ q.toNat := by omega
      simp [List.getElem?_set_ne hne]
    · rw [if_neg hq, if_neg hq]
  · rw [if_neg hi]

theorem ler_escrever_mesmo (xs : List Peca) (i : Int) (p : Peca) (h0 : 0 ≤ i)
    (hi : i < xs.length) :
    lerDados (escreverDados xs i p) i = p := by
  unfold lerDados escreverDados
  have hc : 0 ≤ i ∧ i < xs.length := ⟨h0, hi⟩
  rw [if_pos hc, List.length_set, if_pos hc]
  have : i.toNat < xs.length := by omega
  simp [List.getElem?_set_self this]

/-- The remainder of C (`Int.tmod`, truncating) by 5 in terms of `%`. -/
theorem tmod_cinco (a : Int) :
    (0 ≤ a ∧ a.tmod 5 = a % 5) ∨ (a < 0 ∧ a.tmod 5 = -((-a) % 5)) := by
  cases a with
  | ofNat n => exact Or.inl ⟨Int.ofNat_nonneg n, Int.tmod_eq_emod (Int.ofNat_nonneg n) (by decide)⟩
  | negSucc n =>
    refine Or.inr ⟨Int.negSucc_lt_zero n, ?_⟩
    rw [Int.neg_negSucc]
    rfl

theorem tmod_distintos (fr t j : Int) (h0 : 0 ≤ j) (hj : j < t) (ht : t < 5) :
    (fr + j).tmod 5 ≠ (fr + t).tmod 5 := by
  rcases tmod_cinco (fr + j) with ⟨_, h1⟩ | ⟨_, h1⟩ <;>
    rcases tmod_cinco (fr + t) with ⟨_, h2⟩ | ⟨_, h2⟩ <;>
    rw [h1, h2] <;> omega

theorem enfileirar_retorno (f : Fila) (p : Peca) :
    ((enfileirar f p).1 = 0 ↔ f.tamanho = (QUEUE_CAP : Int)) ∧
    (f.tamanho = (QUEUE_CAP : Int) → enfileirar f p = (0, f)) ∧
    (f.tamanho ≠ (QUEUE_CAP : Int) →
      (enfileirar f p).1 = 1 ∧ (enfileirar f p).2.tamanho = f.tamanho + 1 ∧
      (enfileirar f p).2.frente = f.frente ∧
      (enfileirar f p).2.dados
        = escreverDados f.dados ((f.frente + f.tamanho).tmod (QUEUE_CAP : Int)) p) := by
  by_cases hc : f.tamanho = (QUEUE_CAP : Int)
  · have he := enfileirar_cheia f p hc
    exact ⟨⟨fun _ => hc, fun _ => by rw [he]⟩, fun _ => he, fun h => absurd hc h⟩
  · have hc5 : ¬ f.tamanho = 5 := by exact_mod_cast hc
    have hfc : filaCheia f = 0 := by simp [filaCheia, hc5]
    have he : (enfileirar f p).1 = 1 ∧ (enfileirar f p).2.tamanho = f.tamanho + 1 ∧
        (enfileirar f p).2.frente = f.frente ∧
        (enfileirar f p).2.dados
          = escreverDados f.dados ((f.frente + f.tamanho).tmod (QUEUE_CAP : Int)) p := by
      unfold enfileirar
      rw [if_neg (not_not.mpr hfc)]
      exact ⟨rfl, rfl, rfl, rfl⟩
    refine ⟨⟨fun h => ?_, fun h => absurd h hc⟩, fun h => absurd h hc, fun _ => he⟩
    rw [he.1] at h; exact absurd h (by decide)

/-- C13 (enqueue fails atomically exactly when full): for every queue state
and every piece, `enfileirar` returns 0 if and only if `tamanho` is
`QUEUE_CAP`, and then the queue is returned exactly as it was; otherwise it
returns 1, `tamanho` goes up by one, `frente` stays, and, the count being
within the capacity as it is in every state the program holds, no slot holding
a piece of the contents is written. -/
theorem enfileirar_atomico (f : Fila) (p : Peca) :
    ((enfileirar f p).1 = 0 ↔ f.tamanho = (QUEUE_CAP : Int)) ∧
    (f.tamanho = (QUEUE_CAP : Int) → enfileirar f p = (0, f)) ∧
    (f.tamanho ≠ (QUEUE_CAP : Int) →
      (enfileirar f p).1 = 1 ∧ (enfileirar f p).2.tamanho = f.tamanho + 1 ∧
      (enfileirar f p).2.frente = f.frente ∧
      (f.tamanho ≤ (QUEUE_CAP : Int) → naoEscreveLogicos f p)) := by
  obtain ⟨h1, h2, h3⟩ := enfileirar_retorno f p
  refine ⟨h1, h2, fun hne => ?_⟩
  obtain ⟨e1, e2, e3, e4⟩ := h3 hne
  refine ⟨e1, e2, e3, fun hcap => ?_⟩
  intro j h0 hj
  rw [e4]
  have ht : f.tamanho < 5 := lt_of_le_of_ne hcap hne
  exact ler_escrever_outro _ _ _ _ (tmod_distintos f.frente f.tamanho j h0 hj ht)

/-- The claim C13 on a queue that wraps around: the fourth piece goes to
slot 1 and the three pieces of the contents stay; on a full queue the call
returns 0 and changes nothing. -/
theorem enfileirar_atomico_witness :
    filaEmVolta.tamanho ≤ (QUEUE_CAP : Int) ∧
    (enfileirar filaEmVolta ⟨'L', 13⟩).1 = 1 ∧
    (enfileirar filaEmVolta ⟨'L', 13⟩).2.tamanho = filaEmVolta.tamanho + 1 ∧
    naoEscreveLogicos filaEmVolta ⟨'L', 13⟩ ∧
    filaLogica (enfileirar filaEmVolta ⟨'L', 13⟩).2
      = [⟨'I', 10⟩, ⟨'O', 11⟩, ⟨'T', 12⟩, ⟨'L', 13⟩] ∧
    enfileirar sessaoExemplo.fila ⟨'L', 13⟩ = (0, sessaoExemplo.fila) :=
  have h := (enfileirar_atomico filaEmVolta ⟨'L', 13⟩).2.2 (by decide)
  have hc := (enfileirar_atomico sessaoExemplo.fila ⟨'L', 13⟩).2.1 (by decide)
  ⟨by decide, h.1, h.2.1, h.2.2.2 (by decide), by decide, hc⟩

theorem lerDados_elemento (xs : List Peca) (i : Int) (h0 : 0 ≤ i) (hi : i < xs.length) :
    xs[i.toNat]? = some (lerDados xs i) := by
  unfold lerDados
  rw [if_pos ⟨h0, hi⟩]
  have : i.toNat < xs.length := by omega
  simp [List.getElem?_eq_getElem this]

/-- C14 (dequeue fails atomically exactly when empty): for every queue state,
`desenfileirar` returns 0 if and only if `tamanho` is 0, and then the queue and
`*out` are returned exactly as they were; otherwise it returns 1, puts
`dados[frente]` in `*out`, takes one from `tamanho`, moves `frente` on by one
around the ring and leaves the array alone. -/
theorem desenfileirar_atomico (f : Fila) (out : Peca) :
    ((desenfileirar f out).1 = 0 ↔ f.tamanho = 0) ∧
    (f.tamanho = 0 → desenfileirar f out = (0, f, out)) ∧
    (f.tamanho ≠ 0 →
      (desenfileirar f out).1 = 1 ∧
      (desenfileirar f out).2.2 = lerDados f.dados f.frente ∧
      (0 ≤ f.frente → f.frente < (QUEUE_CAP : Int) →
        f.dados[f.frente.toNat]? = some (desenfileirar f out).2.2) ∧
      (desenfileirar f out).2.1.tamanho = f.tamanho - 1 ∧
      (desenfileirar f out).2.1.frente = (f.frente + 1).tmod (QUEUE_CAP : Int) ∧
      (desenfileirar f out).2.1.dados = f.dados) := by
  by_cases hc : f.tamanho = 0
  · have hd := desenfileirar_vazia f out hc
    exact ⟨⟨fun _ => hc, fun _ => by rw [hd]⟩, fun _ => hd, fun h => absurd hc h⟩
  · have hfv : filaVazia f = 0 := by simp [filaVazia, hc]
    have hd : (desenfileirar f out).1 = 1 ∧
        (desenfileirar f out).2.2 = lerDados f.dados f.frente ∧
        (desenfileirar f out).2.1.tamanho = f.tamanho - 1 ∧
        (desenfileirar f out).2.1.frente = (f.frente + 1).tmod (QUEUE_CAP : Int) ∧
        (desenfileirar f out).2.1.dados = f.dados := by
      unfold desenfileirar
      rw [if_neg (not_not.mpr hfv)]
      exact ⟨rfl, rfl, rfl, rfl, rfl⟩
    obtain ⟨d1, d2, d3, d4, d5⟩ := hd
    refine ⟨⟨fun h => ?_, fun h => absurd h hc⟩, fun h => absurd h hc,
      fun _ => ⟨d1, d2, fun h0 h5 => ?_, d3, d4, d5⟩⟩
    · rw [d1] at h; exact absurd h (by decide)
    · rw [d2]
      exact lerDados_elemento f.dados f.frente h0 (by rw [f.tam_dados]; exact h5)

/-- The claim C14 on a queue that wraps around, and on the same array with
count 0. -/
theorem desenfileirar_atomico_witness :
    desenfileirar (initFila filaEmVolta) ⟨'L', 99⟩ = (0, initFila filaEmVolta, ⟨'L', 99⟩) ∧
    (desenfileirar filaEmVolta ⟨'L', 99⟩).1 = 1 ∧
    (desenfileirar filaEmVolta ⟨'L', 99⟩).2.2 = lerDados filaEmVolta.dados filaEmVolta.frente ∧
    (desenfileirar filaEmVolta ⟨'L', 99⟩).2.2 = ⟨'I', 10⟩ :=
  have h0 := (desenfileirar_atomico (initFila filaEmVolta) ⟨'L', 99⟩).2.1 (by decide)
  have h := (desenfileirar_atomico filaEmVolta ⟨'L', 99⟩).2.2 (by decide)
  ⟨h0, h.1, h.2.1, by decide⟩

/-- C15 (push fails atomically exactly when full): `empilhar` returns 0 if and
only if `topo` is `STACK_CAP`, and then the stack is returned exactly as it
was; otherwise it returns 1, adds one to `topo`, leaves every slot other than
the old `topo` as it was, in particular the pieces below, and, the old `topo`
being an index of the array, stores `x` there. -/
theorem empilhar_atomico (p : Pilha) (x : Peca) :
    ((empilhar p x).1 = 0 ↔ p.topo = (STACK_CAP : Int)) ∧
    (p.topo = (STACK_CAP : Int) → empilhar p x = (0, p)) ∧
    (p.topo ≠ (STACK_CAP : Int) →
      (empilhar p x).1 = 1 ∧ (empilhar p x).2.topo = p.topo + 1 ∧
      (∀ i : Int, i ≠ p.topo → lerDados (empilhar p x).2.dados i = lerDados p.dados i) ∧
      (0 ≤ p.topo → p.topo ≤ (STACK_CAP : Int) →
        lerDados (empilhar p x).2.dados p.topo = x)) := by
  by_cases hc : p.topo = (STACK_CAP : Int)
  · have he := empilhar_cheia p x hc
    exact ⟨⟨fun _ => hc, fun _ => by rw [he]⟩, fun _ => he, fun h => absurd hc h⟩
  · have hc3 : ¬ p.topo = 3 := by exact_mod_cast hc
    have hpc : pilhaCheia p = 0 := by simp [pilhaCheia, hc3]
    have he : (empilhar p x).1 = 1 ∧ (empilhar p x).2.topo = p.topo + 1 ∧
        (empilhar p x).2.dados = escreverDados p.dados p.topo x := by
      unfold empilhar
      rw [if_neg (not_not.mpr hpc)]
      exact ⟨rfl, rfl, rfl⟩
    obtain ⟨e1, e2, e3⟩ := he
    refine ⟨⟨fun h => ?_, fun h => absurd h hc⟩, fun h => absurd h hc,
      fun _ => ⟨e1, e2, fun i hi => ?_, fun h0 h3 => ?_⟩⟩
    · rw [e1] at h; exact absurd h (by decide)
    · rw [e3]; exact ler_escrever_outro _ _ _ _ hi
    · rw [e3]
      have hlt : p.topo < (STACK_CAP : Int) := lt_of_le_of_ne h3 hc
      exact ler_escrever_mesmo _ _ _ h0 (by rw [p.tam_dados]; exact hlt)

/-- The claim C15 on a stack of two pieces: the third goes in slot 2 and the
two below stay; on the full stack that results a fourth push fails and changes
nothing. -/
theorem empilhar_atomico_witness :
    (empilhar pilhaDeDuas ⟨'T', 3⟩).1 = 1 ∧
    lerDados (empilhar pilhaDeDuas ⟨'T', 3⟩).2.dados pilhaDeDuas.topo = ⟨'T', 3⟩ ∧
    lerDados (empilhar pilhaDeDuas ⟨'T', 3⟩).2.dados 0 = lerDados pilhaDeDuas.dados 0 ∧
    empilhar (empilhar pilhaDeDuas ⟨'T', 3⟩).2 ⟨'O', 4⟩
      = (0, (empilhar pilhaDeDuas ⟨'T', 3⟩).2) :=
  have h := (empilhar_atomico pilhaDeDuas ⟨'T', 3⟩).2.2 (by decide)
  have hc := (empilhar_atomico (empilhar pilhaDeDuas ⟨'T', 3⟩).2 ⟨'O', 4⟩).2.1 (by decide)
  ⟨h.1, h.2.2.2 (by decide) (by decide), h.2.2.1 0 (by decide), hc⟩

/-- C16 (pop fails atomically exactly when empty): for every stack state,
`desempilhar` returns 0 if and only if `topo` is 0, and then the stack and
`*out` are returned exactly as they were; otherwise it returns 1, puts the old
`dados[topo - 1]` in `*out`, takes one from `topo` and leaves the array alone.
On a well-formed stack the piece popped after a push is the piece pushed.
`usarPecaReservada` is this pop, reporting the piece or the empty stack. -/
theorem desempilhar_atomico (p : Pilha) (out : Peca) :
    ((desempilhar p out).1 = 0 ↔ p.topo = 0) ∧
    (p.topo = 0 → desempilhar p out = (0, p, out)) ∧
    (p.topo ≠ 0 →
      (desempilhar p out).1 = 1 ∧
      (desempilhar p out).2.2 = lerDados p.dados (p.topo - 1) ∧
      (desempilhar p out).2.1.topo = p.topo - 1 ∧
      (desempilhar p out).2.1.dados = p.dados) ∧
    (∀ x : Peca, p.bemFormada → p.topo < (STACK_CAP : Int) →
      (desempilhar (empilhar p x).2 out).1 = 1 ∧
      (desempilhar (empilhar p x).2 out).2.2 = x ∧
      pilhaBaseTopo (desempilhar (empilhar p x).2 out).2.1 = pilhaBaseTopo p) ∧
    (usarPecaReservada p).1 = (desempilhar p Peca.indet).2.1 ∧
    (p.topo = 0 → (usarPecaReservada p).2 = Msg.pilhaVaziaUsar) ∧
    (p.topo ≠ 0 → (usarPecaReservada p).2 = Msg.usou (lerDados p.dados (p.topo - 1))) := by
  have hgeral : ∀ (q : Pilha) (o : Peca), q.topo ≠ 0 →
      (desempilhar q o).1 = 1 ∧ (desempilhar q o).2.2 = lerDados q.dados (q.topo - 1) ∧
      (desempilhar q o).2.1.topo = q.topo - 1 ∧ (desempilhar q o).2.1.dados = q.dados := by
    intro q o hq
    have hpv : pilhaVazia q = 0 := by simp [pilhaVazia, hq]
    unfold desempilhar
    rw [if_neg (not_not.mpr hpv)]
    exact ⟨rfl, rfl, rfl, rfl⟩
  have husar : (usarPecaReservada p).1 = (desempilhar p Peca.indet).2.1 := by
    unfold usarPecaReservada
    dsimp only
    split <;> rfl
  have hpush : ∀ x : Peca, p.bemFormada → p.topo < (STACK_CAP : Int) →
      (desempilhar (empilhar p x).2 out).1 = 1 ∧
      (desempilhar (empilhar p x).2 out).2.2 = x ∧
      pilhaBaseTopo (desempilhar (empilhar p x).2 out).2.1 = pilhaBaseTopo p := by
    intro x hwf hlt
    obtain ⟨_, e2, e3, e4⟩ := empilhar_ok p x hwf hlt
    have hpos : 0 < (empilhar p x).2.topo := by rw [e4]; linarith [hwf.1]
    obtain ⟨d1, _, d3, _, _⟩ := desempilhar_ok (empilhar p x).2 out e2 hpos
    rw [e3] at d3
    obtain ⟨hb, ht⟩ := List.append_inj' d3 rfl
    exact ⟨d1, by simpa using ht.symm, hb.symm⟩
  by_cases hc : p.topo = 0
  · have hd := desempilhar_vazia p out hc
    refine ⟨⟨fun _ => hc, fun _ => by rw [hd]⟩, fun _ => hd, fun h => absurd hc h, hpush, husar,
      fun _ => ?_, fun h => absurd hc h⟩
    rw [usarPecaReservada_vazia p hc]
  · obtain ⟨d1, d2, d3, d4⟩ := hgeral p out hc
    obtain ⟨u1, u2, _, _⟩ := hgeral p Peca.indet hc
    refine ⟨⟨fun h => ?_, fun h => absurd h hc⟩, fun h => absurd h hc,
      fun _ => ⟨d1, d2, d3, d4⟩, hpush, husar, fun h => absurd h hc, fun _ => ?_⟩
    · rw [d1] at h; exact absurd h (by decide)
    · unfold usarPecaReservada
      dsimp only
      rw [if_pos (by rw [u1]; decide), u2]

/-- The claim C16 on a stack of two pieces and on the same array with `topo`
at 0. -/
theorem desempilhar_atomico_witness :
    desempilhar (initPilha pilhaDeDuas) ⟨'L', 99⟩ = (0, initPilha pilhaDeDuas, ⟨'L', 99⟩) ∧
    (desempilhar pilhaDeDuas ⟨'L', 99⟩).1 = 1 ∧
    (desempilhar pilhaDeDuas ⟨'L', 99⟩).2.2 = ⟨'I', 2⟩ ∧
    (desempilhar (empilhar pilhaDeDuas ⟨'T', 3⟩).2 ⟨'L', 99⟩).2.2 = ⟨'T', 3⟩ ∧
    (usarPecaReservada pilhaDeDuas).2 = Msg.usou ⟨'I', 2⟩ :=
  have h0 := (desempilhar_atomico (initPilha pilhaDeDuas) ⟨'L', 99⟩).2.1 (by decide)
  have h := desempilhar_atomico pilhaDeDuas ⟨'L', 99⟩
  ⟨h0, (h.2.2.1 (by decide)).1, (h.2.2.1 (by decide)).2.1.trans (by decide),
    (h.2.2.2.1 ⟨'T', 3⟩ (by decide) (by decide)).2.1,
    (h.2.2.2.2.2.2 (by decide)).trans (by decide)⟩

/-- C17 (the push inside Reserve cannot fail): whatever the queue, once the
`pilhaCheia` check has let a stack through, `empilhar` on that stack returns 1,
so `reservarPeca` never prints the line of a piece dropped for lack of room;
when `desenfileirar` succeeds the piece taken is the one reported as reserved,
the stack left is the one `empilhar` returns, and on a stack with
`0 ≤ topo ≤ STACK_CAP` the piece is its new top. -/
theorem reservar_empilhar_nao_falha (f : Fila) (p : Pilha)
    (htopo : 0 ≤ p.topo ∧ p.topo ≤ (STACK_CAP : Int)) :
    (pilhaCheia p = 0 → ∀ x : Peca, (empilhar p x).1 = 1) ∧
    (∀ x : Peca, (reservarPeca f p).2.2 ≠ Msg.descartadaNaReserva x) ∧
    (pilhaCheia p = 0 → (desenfileirar f Peca.indet).1 ≠ 0 →
      reservarPeca f p = ((desenfileirar f Peca.indet).2.1,
        (empilhar p (desenfileirar f Peca.indet).2.2).2,
        Msg.reservou (desenfileirar f Peca.indet).2.2) ∧
      pilhaTopoBase (reservarPeca f p).2.1
        = (desenfileirar f Peca.indet).2.2 :: pilhaTopoBase p) := by
  have hemp : pilhaCheia p = 0 → ∀ x : Peca, (empilhar p x).1 = 1 := by
    intro hpc x
    unfold empilhar
    rw [if_neg (not_not.mpr hpc)]
  refine ⟨hemp, ?_, ?_⟩
  · intro x
    unfold reservarPeca
    by_cases hpc : pilhaCheia p = 0
    · rw [if_neg (not_not.mpr hpc)]
      dsimp only
      by_cases hd : (desenfileirar f Peca.indet).1 = 0
      · rw [if_neg (not_not.mpr hd)]
        exact fun h => Msg.noConfusion h
      · rw [if_pos hd, if_pos (by rw [hemp hpc]; decide)]
        exact fun h => Msg.noConfusion h
    · rw [if_pos hpc]
      exact fun h => Msg.noConfusion h
  · intro hpc hd
    have hres : reservarPeca f p = ((desenfileirar f Peca.indet).2.1,
        (empilhar p (desenfileirar f Peca.indet).2.2).2,
        Msg.reservou (desenfileirar f Peca.indet).2.2) := by
      unfold reservarPeca
      rw [if_neg (not_not.mpr hpc)]
      dsimp only
      rw [if_pos hd, if_pos (by rw [hemp hpc]; decide)]
    refine ⟨hres, ?_⟩
    have hne : p.topo ≠ (STACK_CAP : Int) := by
      intro h
      simp [pilhaCheia, h] at hpc
    have hlt : p.topo < (STACK_CAP : Int) := lt_of_le_of_ne htopo.2 hne
    obtain ⟨_, _, e3, _⟩ := empilhar_ok p (desenfileirar f Peca.indet).2.2 htopo hlt
    rw [hres]
    unfold pilhaTopoBase
    rw [e3]
    simp

/-- The claim C17 on the queue that wraps around and the stack of two
pieces: the check passes, the dequeue succeeds, and the piece taken is on top
of the stack. -/
theorem reservar_empilhar_nao_falha_witness :
    pilhaCheia pilhaDeDuas = 0 ∧
    (desenfileirar filaEmVolta Peca.indet).1 ≠ 0 ∧
    (empilhar pilhaDeDuas ⟨'I', 10⟩).1 = 1 ∧
    (reservarPeca filaEmVolta pilhaDeDuas).2.2 = Msg.reservou ⟨'I', 10⟩ ∧
    pilhaTopoBase (reservarPeca filaEmVolta pilhaDeDuas).2.1
      = (desenfileirar filaEmVolta Peca.indet).2.2 :: pilhaTopoBase pilhaDeDuas :=
  have h := reservar_empilhar_nao_falha filaEmVolta pilhaDeDuas (by decide)
  ⟨by decide, by decide, h.1 (by decide) ⟨'I', 10⟩, by decide,
    (h.2.2 (by decide) (by decide)).2⟩

/-! ## The ring buffer as a bounded list -/

theorem filaLogica_cheia_sse (f : Fila) (hwf : f.bemFormada) :
    (filaLogica f).length = QUEUE_CAP ↔ f.tamanho = (QUEUE_CAP : Int) := by
  rw [filaLogica_length]
  obtain ⟨_, _, h3, h4⟩ := hwf
  constructor
  · intro h
    have : (f.tamanho.toNat : Int) = 5 := by rw [h]; rfl
    rw [Int.toNat_of_nonneg h3] at this
    exact_mod_cast this
  · intro h
    rw [h]; rfl

theorem pos_fim_valida (f : Fila) (hwf : f.bemFormada) :
    0 ≤ (f.frente + f.tamanho).tmod (QUEUE_CAP : Int) ∧
      (f.frente + f.tamanho).tmod (QUEUE_CAP : Int) < (QUEUE_CAP : Int) := by
  obtain ⟨h1, _, h3, _⟩ := hwf
  exact ⟨Int.tmod_nonneg _ (by linarith), Int.tmod_lt_of_pos _ (by decide)⟩

/-- C18 (the ring buffer refines a bounded list, wrap-around included): for a
queue with `0 ≤ frente < QUEUE_CAP` and `0 ≤ tamanho ≤ QUEUE_CAP`, read as the
list `dados[(frente + i) % QUEUE_CAP]`, `i < tamanho`, `enfileirar` and
`desenfileirar` do what `enqueue` and `dequeue` of the bounded list do: a
successful `enfileirar` turns `L` into `L ++ [p]`, writing slot
`(frente + tamanho) % QUEUE_CAP` and no other, and a successful
`desenfileirar` on `h :: T` returns `h` and leaves `T`. -/
theorem fila_refina_lista (f : Fila) (p out : Peca) (hwf : f.bemFormada) :
    (filaLogica f).length ≤ QUEUE_CAP ∧
    ((enfileirar f p).1 ≠ 0 ↔ (enqueueSpec (filaLogica f) p).1 = true) ∧
    filaLogica (enfileirar f p).2 = (enqueueSpec (filaLogica f) p).2 ∧
    (enfileirar f p).2.bemFormada ∧
    ((enfileirar f p).1 ≠ 0 →
      filaLogica (enfileirar f p).2 = filaLogica f ++ [p] ∧
      indiceValido f.dados ((f.frente + f.tamanho).tmod (QUEUE_CAP : Int)) ∧
      lerDados (enfileirar f p).2.dados ((f.frente + f.tamanho).tmod (QUEUE_CAP : Int)) = p ∧
      ∀ i : Int, i ≠ (f.frente + f.tamanho).tmod (QUEUE_CAP : Int) →
        lerDados (enfileirar f p).2.dados i = lerDados f.dados i) ∧
    ((desenfileirar f out).1 ≠ 0 ↔ (dequeueSpec (filaLogica f)).1 ≠ none) ∧
    ((desenfileirar f out).1 ≠ 0 →
      (dequeueSpec (filaLogica f)).1 = some (desenfileirar f out).2.2) ∧
    filaLogica (desenfileirar f out).2.1 = (dequeueSpec (filaLogica f)).2 ∧
    (desenfileirar f out).2.1.bemFormada ∧
    (∀ (h : Peca) (t : List Peca), filaLogica f = h :: t →
      (desenfileirar f out).1 = 1 ∧ (desenfileirar f out).2.2 = h ∧
      filaLogica (desenfileirar f out).2.1 = t) := by
  have hlen : (filaLogica f).length ≤ QUEUE_CAP := by
    rw [filaLogica_length]
    have := hwf.2.2.2
    have h5 : f.tamanho ≤ 5 := this
    omega
  have henq : ((enfileirar f p).1 ≠ 0 ↔ (enqueueSpec (filaLogica f) p).1 = true) ∧
      filaLogica (enfileirar f p).2 = (enqueueSpec (filaLogica f) p).2 ∧
      (enfileirar f p).2.bemFormada ∧
      ((enfileirar f p).1 ≠ 0 →
        filaLogica (enfileirar f p).2 = filaLogica f ++ [p] ∧
        indiceValido f.dados ((f.frente + f.tamanho).tmod (QUEUE_CAP : Int)) ∧
        lerDados (enfileirar f p).2.dados ((f.frente + f.tamanho).tmod (QUEUE_CAP : Int)) = p ∧
        ∀ i : Int, i ≠ (f.frente + f.tamanho).tmod (QUEUE_CAP : Int) →
          lerDados (enfileirar f p).2.dados i = lerDados f.dados i) := by
    by_cases hc : f.tamanho = (QUEUE_CAP : Int)
    · have he := enfileirar_cheia f p hc
      have hl := (filaLogica_cheia_sse f hwf).mpr hc
      rw [he]
      simp [enqueueSpec, hl, hwf]
    · have hlt : f.tamanho < (QUEUE_CAP : Int) := lt_of_le_of_ne hwf.2.2.2 hc
      obtain ⟨e1, e2, e3, _, _⟩ := enfileirar_ok f p hwf hlt
      obtain ⟨_, _, r3⟩ := enfileirar_retorno f p
      obtain ⟨_, _, _, r4⟩ := r3 hc
      have hl : ¬ (filaLogica f).length = QUEUE_CAP :=
        fun h => hc ((filaLogica_cheia_sse f hwf).mp h)
      have hpos := pos_fim_valida f hwf
      have hv : indiceValido f.dados ((f.frente + f.tamanho).tmod (QUEUE_CAP : Int)) :=
        ⟨hpos.1, by rw [f.tam_dados]; exact hpos.2⟩
      refine ⟨?_, ?_, e2, fun _ => ⟨e3, hv, ?_, ?_⟩⟩
      · simp [enqueueSpec, hl, e1]
      · simp [enqueueSpec, hl, e3]
      · rw [r4]; exact ler_escrever_mesmo _ _ _ hv.1 hv.2
      · intro i hi
        rw [r4]; exact ler_escrever_outro _ _ _ _ hi
  have hdeq : ((desenfileirar f out).1 ≠ 0 ↔ (dequeueSpec (filaLogica f)).1 ≠ none) ∧
      ((desenfileirar f out).1 ≠ 0 →
        (dequeueSpec (filaLogica f)).1 = some (desenfileirar f out).2.2) ∧
      filaLogica (desenfileirar f out).2.1 = (dequeueSpec (filaLogica f)).2 ∧
      (desenfileirar f out).2.1.bemFormada := by
    by_cases hc : f.tamanho = 0
    · have hd := desenfileirar_vazia f out hc
      have hl : filaLogica f = [] := by simp [filaLogica, hc]
      rw [hd, hl]
      simp [dequeueSpec, hwf, hl]
    · have hpos : 0 < f.tamanho := lt_of_le_of_ne hwf.2.2.1 (Ne.symm hc)
      obtain ⟨d1, d2, d3, _, _⟩ := desenfileirar_ok f out hwf hpos
      rw [d3]
      simp [dequeueSpec, d1, d2]
  refine ⟨hlen, henq.1, henq.2.1, henq.2.2.1, henq.2.2.2, hdeq.1, hdeq.2.1, hdeq.2.2.1,
    hdeq.2.2.2, ?_⟩
  intro h t hq
  have hpos : 0 < f.tamanho := by
    have hl := filaLogica_length f
    rw [hq] at hl
    simp at hl; omega
  obtain ⟨d1, _, d3, _, _⟩ := desenfileirar_ok f out hwf hpos
  rw [hq] at d3
  obtain ⟨hh, ht⟩ := List.cons.inj d3
  exact ⟨d1, hh.symm, ht.symm⟩

/-- The claim C18 on the queue that wraps around (head at 3, three pieces):
the fourth piece is written at slot `(3 + 3) % 5 = 1` and becomes the last of
the list, and the dequeue returns the piece at slot 3. -/
theorem fila_refina_lista_witness :
    filaEmVolta.bemFormada ∧
    filaLogica filaEmVolta = [⟨'I', 10⟩, ⟨'O', 11⟩, ⟨'T', 12⟩] ∧
    filaLogica (enfileirar filaEmVolta ⟨'L', 13⟩).2
      = filaLogica filaEmVolta ++ [⟨'L', 13⟩] ∧
    (filaEmVolta.frente + filaEmVolta.tamanho).tmod (QUEUE_CAP : Int) = 1 ∧
    lerDados (enfileirar filaEmVolta ⟨'L', 13⟩).2.dados
      ((filaEmVolta.frente + filaEmVolta.tamanho).tmod (QUEUE_CAP : Int)) = ⟨'L', 13⟩ ∧
    (desenfileirar filaEmVolta Peca.indet).2.2 = ⟨'I', 10⟩ ∧
    filaLogica (desenfileirar filaEmVolta Peca.indet).2.1 = [⟨'O', 11⟩, ⟨'T', 12⟩] :=
  have h := fila_refina_lista filaEmVolta ⟨'L', 13⟩ Peca.indet (by decide)
  have he := h.2.2.2.2.1 (by decide)
  have hd := h.2.2.2.2.2.2.2.2.2 ⟨'I', 10⟩ [⟨'O', 11⟩, ⟨'T', 12⟩] (by decide)
  ⟨by decide, by decide, he.1, by decide, he.2.2.1, hd.2.1, hd.2.2⟩

/-! ## Indices stay inside the arrays -/

theorem indiceValido_acesso (xs : List Peca) (i : Int) (q : Peca) (h : indiceValido xs i) :
    xs[i.toNat]? = some (lerDados xs i) ∧ escreverDados xs i q = xs.set i.toNat q := by
  refine ⟨lerDados_elemento xs i h.1 h.2, ?_⟩
  have hc : 0 ≤ i ∧ i < xs.length := h
  unfold escreverDados
  rw [if_pos hc]

theorem enfileirar_bemFormada (f : Fila) (x : Peca) (hf : f.bemFormada) :
    (enfileirar f x).2.bemFormada := by
  by_cases hc : f.tamanho = (QUEUE_CAP : Int)
  · rw [enfileirar_cheia f x hc]; exact hf
  · exact (enfileirar_ok f x hf (lt_of_le_of_ne hf.2.2.2 hc)).2.1

theorem desenfileirar_bemFormada (f : Fila) (out : Peca) (hf : f.bemFormada) :
    (desenfileirar f out).2.1.bemFormada := by
  by_cases hc : f.tamanho = 0
  · rw [desenfileirar_vazia f out hc]; exact hf
  · exact (desenfileirar_ok f out hf (lt_of_le_of_ne hf.2.2.1 (Ne.symm hc))).2.1

theorem empilhar_bemFormada (p : Pilha) (x : Peca) (hp : p.bemFormada) :
    (empilhar p x).2.bemFormada := by
  by_cases hc : p.topo = (STACK_CAP : Int)
  · rw [empilhar_cheia p x hc]; exact hp
  · exact (empilhar_ok p x hp (lt_of_le_of_ne hp.2 hc)).2.1

theorem desempilhar_bemFormada (p : Pilha) (out : Peca) (hp : p.bemFormada) :
    (desempilhar p out).2.1.bemFormada := by
  by_cases hc : p.topo = 0
  · rw [desempilhar_vazia p out hc]; exact hp
  · exact (desempilhar_ok p out hp (lt_of_le_of_ne hp.1 (Ne.symm hc))).2.1

theorem pos_logica_valida (f : Fila) (hf : f.bemFormada) (i : Nat) :
    indiceValido f.dados ((f.frente + (i : Int)).tmod (QUEUE_CAP : Int)) := by
  refine ⟨Int.tmod_nonneg _ (by linarith [hf.1, Int.ofNat_nonneg i]), ?_⟩
  rw [f.tam_dados]
  exact Int.tmod_lt_of_pos _ (by decide)

/-- C19 (index well-formedness): `0 ≤ frente < QUEUE_CAP`,
`0 ≤ tamanho ≤ QUEUE_CAP` and `0 ≤ topo ≤ STACK_CAP` hold after `initFila` and
`initPilha` and are kept by `enfileirar`, `desenfileirar`, `empilhar`,
`desempilhar`, by every action and by the replenishing step; under them every
index used on the arrays (the write at `(frente + tamanho) % QUEUE_CAP`, the
read at `frente`, the write at `topo`, the read at `topo - 1`, and the reads
made to show the state) is inside the array, where the reads and writes of the
model are the plain list operations. -/
theorem indices_bem_formados (f0 f : Fila) (p0 p : Pilha) (x out : Peca) (a : Acao) (r : Nat)
    (pid : Int) (hf : f.bemFormada) (hp : p.bemFormada) :
    (initFila f0).bemFormada ∧ (initPilha p0).bemFormada ∧
    (enfileirar f x).2.bemFormada ∧ (desenfileirar f out).2.1.bemFormada ∧
    (empilhar p x).2.bemFormada ∧ (desempilhar p out).2.1.bemFormada ∧
    (aplicarAcao a ⟨f, p, pid⟩).1.bemFormado ∧ (repor r ⟨f, p, pid⟩).1.bemFormado ∧
    (passo a r ⟨f, p, pid⟩).bemFormado ∧
    (filaCheia f = 0 →
      indiceValido f.dados ((f.frente + f.tamanho).tmod (QUEUE_CAP : Int))) ∧
    (filaVazia f = 0 → indiceValido f.dados f.frente) ∧
    (pilhaCheia p = 0 → indiceValido p.dados p.topo) ∧
    (pilhaVazia p = 0 → indiceValido p.dados (p.topo - 1)) ∧
    (∀ i : Nat, indiceValido f.dados ((f.frente + (i : Int)).tmod (QUEUE_CAP : Int))) ∧
    (∀ i : Nat, (i : Int) < p.topo → indiceValido p.dados (i : Int)) ∧
    (∀ (xs : List Peca) (i : Int) (q : Peca), indiceValido xs i →
      xs[i.toNat]? = some (lerDados xs i) ∧ escreverDados xs i q = xs.set i.toNat q) := by
  have hs : (Estado.mk f p pid).bemFormado := ⟨hf, hp⟩
  have ha := (aplicarAcao_casos a ⟨f, p, pid⟩ hs).1
  refine ⟨by simp [initFila, Fila.bemFormada], by simp [initPilha, Pilha.bemFormada],
    enfileirar_bemFormada f x hf, desenfileirar_bemFormada f out hf,
    empilhar_bemFormada p x hp, desempilhar_bemFormada p out hp,
    ha, (repor_casos r ⟨f, p, pid⟩ hs).1, (repor_casos r _ ha).1, ?_, ?_, ?_, ?_,
    pos_logica_valida f hf, ?_, indiceValido_acesso⟩
  · intro _
    have h := pos_fim_valida f hf
    exact ⟨h.1, by rw [f.tam_dados]; exact h.2⟩
  · intro _
    exact ⟨hf.1, by rw [f.tam_dados]; exact hf.2.1⟩
  · intro hc
    have hne : p.topo ≠ (STACK_CAP : Int) := by
      intro h
      simp [pilhaCheia, h] at hc
    exact ⟨hp.1, by rw [p.tam_dados]; exact lt_of_le_of_ne hp.2 hne⟩
  · intro hv
    have hne : p.topo ≠ 0 := by
      intro h
      simp [pilhaVazia, h] at hv
    have h1 := hp.1
    have h2 : p.topo ≤ 3 := hp.2
    refine ⟨by omega, ?_⟩
    rw [p.tam_dados]
    show p.topo - 1 < 3
    omega
  · intro i hi
    refine ⟨Int.ofNat_nonneg i, ?_⟩
    rw [p.tam_dados]
    exact lt_of_lt_of_le hi hp.2

/-- The claim C19 on the queue that wraps around and the stack of two
pieces. -/
theorem indices_bem_formados_witness :
    filaEmVolta.bemFormada ∧ pilhaDeDuas.bemFormada ∧
    (enfileirar filaEmVolta ⟨'L', 13⟩).2.bemFormada ∧
    (passo Acao.reservar 0 ⟨filaEmVolta, pilhaDeDuas, 14⟩).bemFormado ∧
    indiceValido filaEmVolta.dados
      ((filaEmVolta.frente + filaEmVolta.tamanho).tmod (QUEUE_CAP : Int)) ∧
    indiceValido pilhaDeDuas.dados (pilhaDeDuas.topo - 1) :=
  have h := indices_bem_formados filaEmVolta filaEmVolta pilhaDeDuas pilhaDeDuas ⟨'L', 13⟩
    Peca.indet Acao.reservar 0 14 (by decide) (by decide)
  ⟨by decide, by decide, h.2.2.1, h.2.2.2.2.2.2.2.2.1, h.2.2.2.2.2.2.2.2.2.1 (by decide),
    h.2.2.2.2.2.2.2.2.2.2.2.2.1 (by decide)⟩

/-! ## The ids held stay in order while the counter has not wrapped -/

end Tetris
